import Mathlib

/-!
# Kitty keyboard protocol codec (`tools/tui/loop/key-encoding.go`)

A shallow embedding of the CSI key-event decoder `KeyEventFromCSI`, of the encoder
`KeyEvent.AsCSI`, of the shortcut parser `ParseShortcut` and of the matcher
`KeyEvent.MatchesParsedShortcut`, together with the protocol tables they read.

Conventions of the embedding:

* a Go `string` is its sequence of bytes, `GoString = List Nat` (every byte the
  code produces is below 256); a string literal of the source is written
  `str "..."`, its UTF-8 bytes;
* a Go `int` is an `Int`; conversions to narrower types (`rune`, `uint16`) are
  written out as explicit wrap-arounds;
* a Go `map` is an association list read with `List.lookup`;
* a nil slice is the empty list (the code only takes `len` of it);
* an index or slice expression of the decoder that Go bounds-checks is a checked
  access that returns `Except.error GoPanic.indexOutOfRange` where Go would panic;
* the package variable `parsed_shortcut_cache` is explicit state, and the tables of
  package `kitty` that `ParseShortcut` reads are the parameter `KittyTables`.
-/

namespace KeyEncoding

/-! ## Go strings -/

/-- Go strings are byte sequences. -/
abbrev GoString := List Nat

/-- The code point U+FFFD that Go substitutes for invalid runes. -/
def utf8_RuneError : Nat := 0xFFFD

/-- Whether an integer is a Unicode scalar value (what Go can encode as is). -/
def validRune (r : Int) : Bool :=
  decide (0 ≤ r) && decide (r ≤ 0x10FFFF) && !(decide (0xD800 ≤ r) && decide (r ≤ 0xDFFF))

/-- UTF-8 encoding of a scalar value given as a natural number. -/
def utf8_encodeNat (n : Nat) : GoString :=
  if n < 0x80 then [n]
  else if n < 0x800 then [0xC0 + n / 64, 0x80 + n % 64]
  else if n < 0x10000 then [0xE0 + n / 4096, 0x80 + n / 64 % 64, 0x80 + n % 64]
  else [0xF0 + n / 262144, 0x80 + n / 4096 % 64, 0x80 + n / 64 % 64, 0x80 + n % 64]

/-- Go `string(rune(r))` for an `int32` value `r`: the UTF-8 encoding of `r`,
or of U+FFFD when `r` is not a valid scalar value. -/
def utf8_EncodeRune (r : Int) : GoString :=
  if validRune r then utf8_encodeNat r.toNat else utf8_encodeNat utf8_RuneError

/-- The bytes of a source string literal (its UTF-8 encoding). -/
def str (s : String) : GoString :=
  s.data.flatMap fun c => utf8_encodeNat c.toNat

/-- Go conversion `rune(x)` of an `int`: truncation to a signed 32-bit value. -/
def toRune (x : Int) : Int :=
  (x + 2147483648) % 4294967296 - 2147483648

/-- Go conversion `KeyModifiers(x)` of an `int`: truncation to `uint16`. -/
def toUint16 (x : Int) : Nat :=
  (x % 65536).toNat

/-- Go `int` subtraction, wrapping in 64 bits. -/
def wrapInt64 (x : Int) : Int :=
  (x + 9223372036854775808) % 18446744073709551616 - 9223372036854775808

/-- A continuation byte of UTF-8. -/
def isCont (b : Nat) : Bool := decide (0x80 ≤ b) && decide (b ≤ 0xBF)

/-- Go `utf8.DecodeRuneInString`: the first rune of a non-empty string and the
number of bytes it occupies; an invalid or truncated encoding decodes to
U+FFFD of width 1. -/
def utf8_DecodeRune : GoString → Nat × Nat
  | [] => (utf8_RuneError, 0)
  | b0 :: rest =>
    if b0 < 0x80 then (b0, 1)
    else if 0xC2 ≤ b0 ∧ b0 ≤ 0xDF then
      match rest with
      | b1 :: _ =>
        if isCont b1 then ((b0 - 0xC0) * 64 + (b1 - 0x80), 2) else (utf8_RuneError, 1)
      | _ => (utf8_RuneError, 1)
    else if 0xE0 ≤ b0 ∧ b0 ≤ 0xEF then
      match rest with
      | b1 :: b2 :: _ =>
        let lo := if b0 = 0xE0 then 0xA0 else 0x80
        let hi := if b0 = 0xED then 0x9F else 0xBF
        if lo ≤ b1 ∧ b1 ≤ hi ∧ isCont b2 then
          ((b0 - 0xE0) * 4096 + (b1 - 0x80) * 64 + (b2 - 0x80), 3)
        else (utf8_RuneError, 1)
      | _ => (utf8_RuneError, 1)
    else if 0xF0 ≤ b0 ∧ b0 ≤ 0xF4 then
      match rest with
      | b1 :: b2 :: b3 :: _ =>
        let lo := if b0 = 0xF0 then 0x90 else 0x80
        let hi := if b0 = 0xF4 then 0x8F else 0xBF
        if lo ≤ b1 ∧ b1 ≤ hi ∧ isCont b2 ∧ isCont b3 then
          ((b0 - 0xF0) * 262144 + (b1 - 0x80) * 4096 + (b2 - 0x80) * 64 + (b3 - 0x80), 4)
        else (utf8_RuneError, 1)
      | _ => (utf8_RuneError, 1)
    else (utf8_RuneError, 1)

/-- Loop of `[]rune(s)`: decode runes one after the other; the fuel bounds the
number of runes, and the length of the string is always enough. -/
def runesAux : Nat → GoString → List Int
  | 0, _ => []
  | _, [] => []
  | fuel + 1, b :: bs =>
    let d := utf8_DecodeRune (b :: bs)
    (d.1 : Int) :: runesAux fuel ((b :: bs).drop d.2)

/-- Go conversion `[]rune(s)`. -/
def toRunes (s : GoString) : List Int := runesAux s.length s

/-- Go conversion `string(runes)` of a rune slice. -/
def fromRunes (rs : List Int) : GoString := rs.flatMap utf8_EncodeRune

/-- Go `strings.Split(s, sep)` for a one-byte separator: the first piece and
the pieces after it. -/
def splitParts (sep : Nat) : GoString → GoString × List GoString
  | [] => ([], [])
  | c :: cs =>
    let r := splitParts sep cs
    if c = sep then ([], r.1 :: r.2) else (c :: r.1, r.2)

/-- Go `strings.Split(s, sep)` for a one-byte separator `sep`. -/
def strings_Split (s : GoString) (sep : Nat) : List GoString :=
  (splitParts sep s).1 :: (splitParts sep s).2

/-- Go `strings.Join(parts, sep)` for a one-byte separator `sep`. -/
def strings_Join : List GoString → Nat → GoString
  | [], _ => []
  | [p], _ => p
  | p :: q :: ps, sep => p ++ sep :: strings_Join (q :: ps) sep

/-- Go `strings.Contains(s, substr)`. -/
def strings_Contains (s substr : GoString) : Bool :=
  s.tails.any fun t => substr.isPrefixOf t

/-! ## Decimal conversions -/

/-- Decimal digits of a natural number, most significant first, as ASCII. -/
def natDigits : Nat → Nat → GoString
  | 0, _ => []
  | fuel + 1, n => if n < 10 then [48 + n] else natDigits fuel (n / 10) ++ [48 + n % 10]

/-- Go `strconv.Itoa`, also what `fmt.Sprint` and `%d` print for an integer. -/
def strconv_Itoa (x : Int) : GoString :=
  if x < 0 then 45 :: natDigits (x.natAbs + 1) x.natAbs else natDigits (x.natAbs + 1) x.natAbs

/-- Value of a run of ASCII decimal digits, `none` on any other byte. -/
def parseDigits : Nat → GoString → Option Nat
  | acc, [] => some acc
  | acc, c :: cs => if 48 ≤ c ∧ c ≤ 57 then parseDigits (acc * 10 + (c - 48)) cs else none

/-- Go `strconv.Atoi` on a 64-bit platform: an optional sign, then at least one
decimal digit and nothing else; `none` stands for a non-nil error (syntax, or a
value outside the `int` range). -/
def strconv_Atoi (s : GoString) : Option Int :=
  match s with
  | [] => none
  | c :: cs =>
    if c = 45 then
      match cs with
      | [] => none
      | _ => (parseDigits 0 cs).bind fun v =>
          if v ≤ 9223372036854775808 then some (-(v : Int)) else none
    else
      let ds := if c = 43 then cs else c :: cs
      match ds with
      | [] => none
      | _ => (parseDigits 0 ds).bind fun v =>
          if v ≤ 9223372036854775807 then some (v : Int) else none

/-! ## Checked accesses -/

/-- Run-time panics of Go that the embedding tracks. -/
inductive GoPanic where
  | indexOutOfRange
  deriving DecidableEq, Repr

deriving instance DecidableEq for Except

/-- Index expression `xs[i]`. -/
def index {α : Type} (xs : List α) (i : Nat) : Except GoPanic α :=
  match xs[i]? with
  | some x => .ok x
  | none => .error .indexOutOfRange

/-- Slice expression `s[lo:]`. -/
def sliceFrom (s : GoString) (lo : Int) : Except GoPanic GoString :=
  if 0 ≤ lo ∧ lo ≤ s.length then .ok (s.drop lo.toNat) else .error .indexOutOfRange

/-- Slice expression `s[:hi]`. -/
def sliceTo (s : GoString) (hi : Int) : Except GoPanic GoString :=
  if 0 ≤ hi ∧ hi ≤ s.length then .ok (s.take hi.toNat) else .error .indexOutOfRange

/-! ## Protocol tables -/

/-- Table `functional_key_number_to_name_map`. -/
def functional_key_number_to_name_map : List (Int × GoString) :=
  [(57344, str "ESCAPE"), (57345, str "ENTER"), (57346, str "TAB"), (57347, str "BACKSPACE"),
   (57348, str "INSERT"), (57349, str "DELETE"), (57350, str "LEFT"), (57351, str "RIGHT"),
   (57352, str "UP"), (57353, str "DOWN"), (57354, str "PAGE_UP"), (57355, str "PAGE_DOWN"),
   (57356, str "HOME"), (57357, str "END"), (57358, str "CAPS_LOCK"), (57359, str "SCROLL_LOCK"),
   (57360, str "NUM_LOCK"), (57361, str "PRINT_SCREEN"), (57362, str "PAUSE"),
   (57363, str "MENU"), (57364, str "F1"), (57365, str "F2"), (57366, str "F3"),
   (57367, str "F4"), (57368, str "F5"), (57369, str "F6"), (57370, str "F7"), (57371, str "F8"),
   (57372, str "F9"), (57373, str "F10"), (57374, str "F11"), (57375, str "F12"),
   (57376, str "F13"), (57377, str "F14"), (57378, str "F15"), (57379, str "F16"),
   (57380, str "F17"), (57381, str "F18"), (57382, str "F19"), (57383, str "F20"),
   (57384, str "F21"), (57385, str "F22"), (57386, str "F23"), (57387, str "F24"),
   (57388, str "F25"), (57389, str "F26"), (57390, str "F27"), (57391, str "F28"),
   (57392, str "F29"), (57393, str "F30"), (57394, str "F31"), (57395, str "F32"),
   (57396, str "F33"), (57397, str "F34"), (57398, str "F35"), (57399, str "KP_0"),
   (57400, str "KP_1"), (57401, str "KP_2"), (57402, str "KP_3"), (57403, str "KP_4"),
   (57404, str "KP_5"), (57405, str "KP_6"), (57406, str "KP_7"), (57407, str "KP_8"),
   (57408, str "KP_9"), (57409, str "KP_DECIMAL"), (57410, str "KP_DIVIDE"),
   (57411, str "KP_MULTIPLY"), (57412, str "KP_SUBTRACT"), (57413, str "KP_ADD"),
   (57414, str "KP_ENTER"), (57415, str "KP_EQUAL"), (57416, str "KP_SEPARATOR"),
   (57417, str "KP_LEFT"), (57418, str "KP_RIGHT"), (57419, str "KP_UP"), (57420, str "KP_DOWN"),
   (57421, str "KP_PAGE_UP"), (57422, str "KP_PAGE_DOWN"), (57423, str "KP_HOME"),
   (57424, str "KP_END"), (57425, str "KP_INSERT"), (57426, str "KP_DELETE"),
   (57427, str "KP_BEGIN"), (57428, str "MEDIA_PLAY"), (57429, str "MEDIA_PAUSE"),
   (57430, str "MEDIA_PLAY_PAUSE"), (57431, str "MEDIA_REVERSE"), (57432, str "MEDIA_STOP"),
   (57433, str "MEDIA_FAST_FORWARD"), (57434, str "MEDIA_REWIND"),
   (57435, str "MEDIA_TRACK_NEXT"), (57436, str "MEDIA_TRACK_PREVIOUS"),
   (57437, str "MEDIA_RECORD"), (57438, str "LOWER_VOLUME"), (57439, str "RAISE_VOLUME"),
   (57440, str "MUTE_VOLUME"), (57441, str "LEFT_SHIFT"), (57442, str "LEFT_CONTROL"),
   (57443, str "LEFT_ALT"), (57444, str "LEFT_SUPER"), (57445, str "LEFT_HYPER"),
   (57446, str "LEFT_META"), (57447, str "RIGHT_SHIFT"), (57448, str "RIGHT_CONTROL"),
   (57449, str "RIGHT_ALT"), (57450, str "RIGHT_SUPER"), (57451, str "RIGHT_HYPER"),
   (57452, str "RIGHT_META"), (57453, str "ISO_LEVEL3_SHIFT"), (57454, str "ISO_LEVEL5_SHIFT")]

/-- Table `csi_number_to_functional_number_map`. -/
def csi_number_to_functional_number_map : List (Int × Int) :=
  [(2, 57348), (3, 57349), (5, 57354), (6, 57355), (7, 57356), (8, 57357), (9, 57346),
   (11, 57364), (12, 57365), (13, 57345), (14, 57367), (15, 57368), (17, 57369), (18, 57370),
   (19, 57371), (20, 57372), (21, 57373), (23, 57374), (24, 57375), (27, 57344), (127, 57347)]

/-- Table `letter_trailer_to_csi_number_map`. -/
def letter_trailer_to_csi_number_map : List (GoString × Int) :=
  [(str "A", 57352), (str "B", 57353), (str "C", 57351), (str "D", 57350), (str "E", 57427),
   (str "F", 8), (str "H", 7), (str "P", 11), (str "Q", 12), (str "S", 14)]

/-- Table `tilde_trailers` (a missing key reads as `false`). -/
def tilde_trailers : List (Int × Bool) :=
  [(57348, true), (57349, true), (57354, true), (57355, true), (57366, true), (57368, true),
   (57369, true), (57370, true), (57371, true), (57372, true), (57373, true), (57374, true),
   (57375, true)]

/-- The loops of `init`: every pair of a map stored the other way round. The
values of the three maps it is applied to are pairwise distinct, so the order
in which Go walks the map does not matter. -/
def invertMap {α β : Type} (m : List (α × β)) : List (β × α) :=
  m.map fun kv => (kv.2, kv.1)

/-- Table `name_to_functional_number_map`, built by `init`. -/
def name_to_functional_number_map : List (GoString × Int) :=
  invertMap functional_key_number_to_name_map

/-- Table `functional_to_csi_number_map`, built by `init`. -/
def functional_to_csi_number_map : List (Int × Int) :=
  invertMap csi_number_to_functional_number_map

/-- Table `csi_number_to_letter_trailer_map`, built by `init`. -/
def csi_number_to_letter_trailer_map : List (Int × GoString) :=
  invertMap letter_trailer_to_csi_number_map

/-! ## Key events -/

/-- Constant `PRESS` of `KeyEventType`. -/
def PRESS : Nat := 1
/-- Constant `REPEAT` of `KeyEventType`. -/
def REPEAT : Nat := 2
/-- Constant `RELEASE` of `KeyEventType`. -/
def RELEASE : Nat := 4

/-- Struct `KeyEvent`; the field `Type_` is the `uint8` field `Type` of the
source and `Mods` is a `uint16`. -/
structure KeyEvent where
  Type_ : Nat := 0
  Mods : Nat := 0
  Key : GoString := []
  ShiftedKey : GoString := []
  AlternateKey : GoString := []
  Text : GoString := []
  Handled : Bool := false
  CSI : GoString := []
  deriving DecidableEq, Repr

/-! ## The decoder -/

/-- The loop of the closure `get_sub_sections`: `none` when `strconv.Atoi`
fails on a non-empty piece. -/
def KeyEventFromCSI.get_sub_sections_loop (missing : Int) : List GoString → Option (List Int)
  | [] => some []
  | x :: xs =>
    if x = [] then (get_sub_sections_loop missing xs).map fun r => missing :: r
    else
      match strconv_Atoi x with
      | none => none
      | some q => (get_sub_sections_loop missing xs).map fun r => q :: r

/-- The closure `get_sub_sections` of `KeyEventFromCSI`; its `nil` result is
the empty list. -/
def KeyEventFromCSI.get_sub_sections (sect : GoString) (missing : Int) : List Int :=
  (KeyEventFromCSI.get_sub_sections_loop missing (strings_Split sect 58)).getD []

/-- The closure `key_name` of `KeyEventFromCSI`, with the variable `last_char`
it captures as a parameter. -/
def KeyEventFromCSI.key_name (last_char : GoString) (keynum : Int) : GoString :=
  if keynum = 0 then []
  else if keynum = 13 then
    if last_char = str "u" then str "ENTER" else str "F3"
  else
    let keynum :=
      match csi_number_to_functional_number_map.lookup keynum with
      | some val => val
      | none => keynum
    match functional_key_number_to_name_map.lookup keynum with
    | some val => val
    | none => utf8_EncodeRune (toRune keynum)

/-- Function `KeyEventFromCSI`: `Except.ok none` is the `nil` result. -/
def KeyEventFromCSI (csi : GoString) : Except GoPanic (Option KeyEvent) :=
  if csi.length = 0 then .ok none else
  let orig_csi := csi
  (sliceFrom csi ((csi.length : Int) - 1)).bind fun last_char =>
  if (!strings_Contains (str "u~ABCDEHFPQRS") last_char) ||
      (decide (last_char = str "~") && (decide (csi = str "200~") || decide (csi = str "201~")))
  then .ok none else
  (sliceTo csi ((csi.length : Int) - 1)).bind fun csi =>
  let sections := strings_Split csi 59
  (index sections 0).bind fun s0 =>
  let first_section := KeyEventFromCSI.get_sub_sections s0 0
  (if sections.length > 1 then
    (index sections 1).bind fun s1 => .ok (KeyEventFromCSI.get_sub_sections s1 1)
   else .ok []).bind fun second_section =>
  (if sections.length > 2 then
    (index sections 2).bind fun s2 => .ok (KeyEventFromCSI.get_sub_sections s2 0)
   else .ok []).bind fun third_section =>
  let ans : KeyEvent := { Type_ := PRESS, CSI := orig_csi }
  (match letter_trailer_to_csi_number_map.lookup last_char with
   | some val => (.ok (some val) : Except GoPanic (Option Int))
   | none =>
     if first_section.length = 0 then .ok none
     else (index first_section 0).bind fun v => .ok (some v)).bind fun keynum? =>
  match keynum? with
  | none => .ok none
  | some keynum =>
  let ans := { ans with Key := KeyEventFromCSI.key_name last_char keynum }
  (if first_section.length > 1 then
    (index first_section 1).bind fun v =>
      .ok { ans with ShiftedKey := KeyEventFromCSI.key_name last_char v }
   else .ok ans).bind fun ans =>
  (if first_section.length > 2 then
    (index first_section 2).bind fun v =>
      .ok { ans with AlternateKey := KeyEventFromCSI.key_name last_char v }
   else .ok ans).bind fun ans =>
  (if second_section.length > 0 then
    (index second_section 0).bind fun v =>
      .ok { ans with Mods := toUint16 (wrapInt64 (v - 1)) }
   else .ok ans).bind fun ans =>
  (if second_section.length > 1 then
    (index second_section 1).bind fun v =>
      .ok (if v = 2 then { ans with Type_ := REPEAT }
           else if v = 3 then { ans with Type_ := RELEASE } else ans)
   else .ok ans).bind fun ans =>
  let ans :=
    if third_section.length > 0 then { ans with Text := fromRunes (third_section.map toRune) }
    else ans
  .ok (some ans)

/-! ## The encoder -/

/-- Function `csi_number_for_name`. The index `key_name[0]` is only reached
for a non-empty `key_name`; it reads the first byte. -/
def csi_number_for_name (key_name : GoString) : Int :=
  if key_name = [] then 0
  else if key_name = str "F3" ∨ key_name = str "ENTER" then 13
  else
    match name_to_functional_number_map.lookup key_name with
    | none => (key_name.headD 0 : Nat)
    | some fn =>
      match functional_to_csi_number_map.lookup fn with
      | some ans => ans
      | none => fn

/-- Method `KeyEvent.AsCSI`; the successive values of `ans` are the contents of
the string builder. -/
def KeyEvent.AsCSI (self : KeyEvent) : GoString :=
  let key := csi_number_for_name self.Key
  let shifted_key := csi_number_for_name self.ShiftedKey
  let alternate_key := csi_number_for_name self.AlternateKey
  let trailer :=
    match csi_number_to_letter_trailer_map.lookup key with
    | some t => t
    | none => str "u"
  let trailer := if self.Key = str "ENTER" then str "u" else trailer
  let key := if trailer ≠ str "u" then 1 else key
  let ans : GoString := 27 :: str "["
  let ans :=
    if key ≠ 1 ∨ self.Mods ≠ 0 ∨ shifted_key ≠ 0 ∨ alternate_key ≠ 0 ∨ self.Text ≠ [] then
      ans ++ strconv_Itoa key
    else ans
  let ans :=
    if shifted_key ≠ 0 ∨ alternate_key ≠ 0 then
      let ans := ans ++ str ":"
      let ans := if shifted_key ≠ 0 then ans ++ strconv_Itoa shifted_key else ans
      if alternate_key ≠ 0 then ans ++ (str ":" ++ strconv_Itoa alternate_key) else ans
    else ans
  let action : Int :=
    if self.Type_ = REPEAT then 2 else if self.Type_ = RELEASE then 3 else 1
  let ans :=
    if self.Mods ≠ 0 ∨ action > 1 ∨ self.Text ≠ [] then
      let m : Nat := self.Mods
      if action > 1 ∨ m ≠ 0 then
        let ans := ans ++ (str ";" ++ strconv_Itoa ((m + 1 : Nat) : Int))
        if action > 1 then ans ++ (str ":" ++ strconv_Itoa action) else ans
      else if self.Text ≠ [] then ans ++ str ";"
      else ans
    else ans
  let ans :=
    if self.Text ≠ [] then
      let runes := toRunes self.Text
      let codes := runes.map strconv_Itoa
      ans ++ str ";" ++ strings_Join codes 58
    else ans
  let trailer :=
    match name_to_functional_number_map.lookup self.Key with
    | some fn => if tilde_trailers.lookup fn = some true then str "~" else trailer
    | none => trailer
  ans ++ trailer

/-! ## Closed form of the decoder

`KeyEventFromCSI.assemble` is the event that `KeyEventFromCSI` builds once it
has parsed the three sections and resolved the key number; `decodeBody` puts
the steps of `KeyEventFromCSI` together with total accesses. The theorem
`KeyEventFromCSI_append` shows that the checked function computes exactly this.
-/

/-- The event `KeyEventFromCSI` returns, from the parsed sections and the key
number. -/
def KeyEventFromCSI.assemble (orig_csi last_char : GoString)
    (first_section second_section third_section : List Int) (keynum : Int) : KeyEvent :=
  { Type_ :=
      if 1 < second_section.length then
        if second_section.getD 1 0 = 2 then REPEAT
        else if second_section.getD 1 0 = 3 then RELEASE else PRESS
      else PRESS
    Mods :=
      if 0 < second_section.length then toUint16 (wrapInt64 (second_section.getD 0 0 - 1))
      else 0
    Key := KeyEventFromCSI.key_name last_char keynum
    ShiftedKey :=
      if 1 < first_section.length then KeyEventFromCSI.key_name last_char (first_section.getD 1 0)
      else []
    AlternateKey :=
      if 2 < first_section.length then KeyEventFromCSI.key_name last_char (first_section.getD 2 0)
      else []
    Text := if 0 < third_section.length then fromRunes (third_section.map toRune) else []
    Handled := false
    CSI := orig_csi }

/-- First parsed section of a payload body (the payload without its final
byte). -/
def firstSection (body : GoString) : List Int :=
  KeyEventFromCSI.get_sub_sections ((strings_Split body 59).getD 0 []) 0

/-- Second parsed section of a payload body, empty when there is none. -/
def secondSection (body : GoString) : List Int :=
  if 1 < (strings_Split body 59).length then
    KeyEventFromCSI.get_sub_sections ((strings_Split body 59).getD 1 []) 1
  else []

/-- Third parsed section of a payload body, empty when there is none. -/
def thirdSection (body : GoString) : List Int :=
  if 2 < (strings_Split body 59).length then
    KeyEventFromCSI.get_sub_sections ((strings_Split body 59).getD 2 []) 0
  else []

/-- What `KeyEventFromCSI` computes on the payload `body ++ [c]`. -/
def decodeBody (body : GoString) (c : Nat) : Option KeyEvent :=
  if (!strings_Contains (str "u~ABCDEHFPQRS") [c]) ||
      (decide ([c] = str "~") &&
        (decide (body ++ [c] = str "200~") || decide (body ++ [c] = str "201~")))
  then none
  else
    match letter_trailer_to_csi_number_map.lookup [c] with
    | some val =>
      some (KeyEventFromCSI.assemble (body ++ [c]) [c] (firstSection body) (secondSection body)
        (thirdSection body) val)
    | none =>
      if (firstSection body).length = 0 then none
      else
        some (KeyEventFromCSI.assemble (body ++ [c]) [c] (firstSection body) (secondSection body)
          (thirdSection body) ((firstSection body).getD 0 0))

/-! ## The blocks of the encoder's output

`KeyEvent.AsCSI` writes the introducer, then three blocks, then the trailer.
The definitions below name these pieces; `AsCSI_eq_blocks` shows that their
concatenation is the output of `KeyEvent.AsCSI`.
-/

/-- The trailer `AsCSI` chooses before it writes (the later change to a tilde
apart). -/
def AsCSI.trailer0 (self : KeyEvent) : GoString :=
  if self.Key = str "ENTER" then str "u"
  else
    match csi_number_to_letter_trailer_map.lookup (csi_number_for_name self.Key) with
    | some t => t
    | none => str "u"

/-- The key number `AsCSI` writes. -/
def AsCSI.keyNumber (self : KeyEvent) : Int :=
  if AsCSI.trailer0 self ≠ str "u" then 1 else csi_number_for_name self.Key

/-- The first block of the output of `AsCSI`: key number, shifted key and
alternate key. -/
def AsCSI.firstBlock (self : KeyEvent) : GoString :=
  (if AsCSI.keyNumber self ≠ 1 ∨ self.Mods ≠ 0 ∨ csi_number_for_name self.ShiftedKey ≠ 0 ∨
      csi_number_for_name self.AlternateKey ≠ 0 ∨ self.Text ≠ [] then
    strconv_Itoa (AsCSI.keyNumber self) else []) ++
  (if csi_number_for_name self.ShiftedKey ≠ 0 ∨ csi_number_for_name self.AlternateKey ≠ 0 then
    str ":" ++
      ((if csi_number_for_name self.ShiftedKey ≠ 0 then
          strconv_Itoa (csi_number_for_name self.ShiftedKey) else []) ++
       (if csi_number_for_name self.AlternateKey ≠ 0 then
          str ":" ++ strconv_Itoa (csi_number_for_name self.AlternateKey) else []))
   else [])

/-- The action code `AsCSI` derives from the event type. -/
def AsCSI.action (self : KeyEvent) : Int :=
  if self.Type_ = REPEAT then 2 else if self.Type_ = RELEASE then 3 else 1

/-- The second block of the output of `AsCSI`: modifiers and action. -/
def AsCSI.secondBlock (self : KeyEvent) : GoString :=
  if AsCSI.action self > 1 ∨ self.Mods ≠ 0 then
    str ";" ++ (strconv_Itoa ((self.Mods + 1 : Nat) : Int) ++
      (if AsCSI.action self > 1 then str ":" ++ strconv_Itoa (AsCSI.action self) else []))
  else if self.Text ≠ [] then str ";"
  else []

/-- The third block of the output of `AsCSI`: the text. -/
def AsCSI.thirdBlock (self : KeyEvent) : GoString :=
  if self.Text ≠ [] then str ";" ++ strings_Join ((toRunes self.Text).map strconv_Itoa) 58
  else []

/-- The trailer `AsCSI` writes. -/
def AsCSI.finalTrailer (self : KeyEvent) : GoString :=
  match name_to_functional_number_map.lookup self.Key with
  | some fn => if tilde_trailers.lookup fn = some true then str "~" else AsCSI.trailer0 self
  | none => AsCSI.trailer0 self

/-- The key number `KeyEventFromCSI` resolves for the payload `body ++ [c]` (the
variable `keynum`): the number mapped from the final byte when it is a letter of the
letter-trailer table, otherwise the first number of the first section. -/
def resolvedKeyNumber (body : GoString) (c : Nat) : Int :=
  match letter_trailer_to_csi_number_map.lookup [c] with
  | some val => val
  | none => (firstSection body).getD 0 0

/-! ## Shortcuts: modifiers, parsing and matching -/

/-- Constant `SHIFT` of `KeyModifiers`. -/
def SHIFT : Nat := 1
/-- Constant `ALT` of `KeyModifiers`. -/
def ALT : Nat := 2
/-- Constant `CTRL` of `KeyModifiers`. -/
def CTRL : Nat := 4
/-- Constant `SUPER` of `KeyModifiers`. -/
def SUPER : Nat := 8
/-- Constant `HYPER` of `KeyModifiers`. -/
def HYPER : Nat := 16
/-- Constant `META` of `KeyModifiers`. -/
def META : Nat := 32
/-- Constant `CAPS_LOCK` of `KeyModifiers`. -/
def CAPS_LOCK : Nat := 64
/-- Constant `NUM_LOCK` of `KeyModifiers`. -/
def NUM_LOCK : Nat := 128

/-- Go `^x` for a `uint16` value `x`: the complement within 16 bits. -/
def complement16 (x : Nat) : Nat := x ^^^ 65535

/-- Method `KeyModifiers.WithoutLocks`. -/
def KeyModifiers.WithoutLocks (self : Nat) : Nat :=
  self &&& complement16 (CAPS_LOCK ||| NUM_LOCK)

/-- Struct `ParsedShortcut`; `Mods` is a `uint16`. -/
structure ParsedShortcut where
  Mods : Nat := 0
  KeyName : GoString := []
  deriving DecidableEq, Repr

/-- Method `KeyEvent.MatchesParsedShortcut`, on the shortcut `ps` points to. -/
def KeyEvent.MatchesParsedShortcut (self : KeyEvent) (ps : ParsedShortcut)
    (event_type : Nat) : Bool :=
  if self.Type_ &&& event_type = 0 then false
  else
    let mods := KeyModifiers.WithoutLocks self.Mods
    if mods = ps.Mods ∧ self.Key = ps.KeyName then true
    else if self.ShiftedKey ≠ [] ∧ mods &&& SHIFT ≠ 0 ∧
        (mods &&& complement16 SHIFT) = ps.Mods ∧ self.ShiftedKey = ps.KeyName then true
    else false

/-- Upper-case form of an ASCII byte. -/
def asciiUpper (b : Nat) : Nat := if 97 ≤ b ∧ b ≤ 122 then b - 32 else b

/-- Go `strings.ToUpper`: an ASCII-only string is mapped byte by byte; any other string
is decoded into runes that are mapped one by one (a rune mapped to a negative value is
dropped) and encoded again. The mapping of the non-ASCII runes, `unicode.ToUpper`, is
the parameter `unicode_ToUpper`. -/
def strings_ToUpper (unicode_ToUpper : Int → Int) (s : GoString) : GoString :=
  if s.all (fun b => decide (b < 128)) then s.map asciiUpper
  else
    fromRunes (((toRunes s).map fun r =>
      if r < 128 then ((asciiUpper r.toNat : Nat) : Int) else unicode_ToUpper r).filter
        fun r => decide (0 ≤ r))

/-- Go `strings.HasSuffix`. -/
def strings_HasSuffix (s suffix : GoString) : Bool := suffix.isSuffixOf s

/-- What `ParseShortcut` reads from outside this file: the three tables of package
`kitty` (`FunctionalKeyNameAliases`, `CharacterKeyNameAliases`, `ConfigModMap`), which
the configuration layer supplies, and the upper-case mapping of the Go library on
non-ASCII runes. -/
structure KittyTables where
  FunctionalKeyNameAliases : List (GoString × GoString)
  CharacterKeyNameAliases : List (GoString × GoString)
  ConfigModMap : List (GoString × Nat)
  unicode_ToUpper : Int → Int

/-- The variable `parts` of `ParseShortcut`: the spec, a final `+` rewritten to `plus`,
split at `+`. -/
def ParseShortcut.parts (spec : GoString) : List GoString :=
  let ospec := if strings_HasSuffix spec (str "+") then spec.dropLast ++ str "plus" else spec
  strings_Split ospec 43

/-- The loop of `ParseShortcut` over the modifier tokens. -/
def ParseShortcut.mods_loop (t : KittyTables) (ans : ParsedShortcut) (qs : List GoString) :
    ParsedShortcut :=
  qs.foldl (fun ans q =>
    match t.ConfigModMap.lookup (strings_ToUpper t.unicode_ToUpper q) with
    | some val => { ans with Mods := ans.Mods ||| (val % 65536) }
    | none => { ans with Mods := ans.Mods ||| (META <<< 8) }) ans

/-- The key name `ParseShortcut` makes of the key token: the functional alias of the
token if it has one, then the upper-case form if that is a functional key name,
otherwise the character alias if there is one, otherwise the text itself. -/
def ParseShortcut.resolve_key (t : KittyTables) (key_name : GoString) : GoString :=
  let key_name :=
    match t.FunctionalKeyNameAliases.lookup (strings_ToUpper t.unicode_ToUpper key_name) with
    | some val => val
    | none => key_name
  match name_to_functional_number_map.lookup (strings_ToUpper t.unicode_ToUpper key_name) with
  | some _ => strings_ToUpper t.unicode_ToUpper key_name
  | none =>
    match t.CharacterKeyNameAliases.lookup (strings_ToUpper t.unicode_ToUpper key_name) with
    | some val => val
    | none => key_name

/-- The part of `ParseShortcut` that runs when the spec is not in the cache, up to the
value it stores and returns. -/
def ParseShortcut.parse (t : KittyTables) (spec : GoString) : ParsedShortcut :=
  let parts := ParseShortcut.parts spec
  let key_name := ParseShortcut.resolve_key t (parts.getLastD [])
  let ans : ParsedShortcut := { KeyName := key_name }
  if parts.length > 1 then ParseShortcut.mods_loop t ans parts.dropLast else ans

/-- Function `ParseShortcut`, with the package variable `parsed_shortcut_cache` as
explicit state (a nil map is the empty list): the result and the cache after the
call. -/
def ParseShortcut (t : KittyTables) (cache : List (GoString × ParsedShortcut))
    (spec : GoString) : ParsedShortcut × List (GoString × ParsedShortcut) :=
  match cache.lookup spec with
  | some val => (val, cache)
  | none => (ParseShortcut.parse t spec, (spec, ParseShortcut.parse t spec) :: cache)

/-- Method `KeyEvent.Matches`: the answer and the cache after the call. -/
def KeyEvent.Matches (t : KittyTables) (cache : List (GoString × ParsedShortcut))
    (self : KeyEvent) (spec : GoString) (event_type : Nat) :
    Bool × List (GoString × ParsedShortcut) :=
  (self.MatchesParsedShortcut (ParseShortcut t cache spec).1 event_type,
    (ParseShortcut t cache spec).2)

/-- Method `KeyEvent.MatchesRelease`: the answer and the cache after the call. -/
def KeyEvent.MatchesRelease (t : KittyTables) (cache : List (GoString × ParsedShortcut))
    (self : KeyEvent) (spec : GoString) : Bool × List (GoString × ParsedShortcut) :=
  (self.MatchesParsedShortcut (ParseShortcut t cache spec).1 RELEASE,
    (ParseShortcut t cache spec).2)

end KeyEncoding

/-! # Theorems -/

namespace KeyEncoding

/-! ## Decimal digits -/

theorem natDigits_isDigit (fuel n : Nat) : ∀ c ∈ natDigits fuel n, 48 ≤ c ∧ c ≤ 57 := by
  induction fuel generalizing n with
  | zero => intro c hc; simp [natDigits] at hc
  | succ f ih =>
    intro c hc
    unfold natDigits at hc
    split at hc
    · simp at hc; omega
    · rcases List.mem_append.mp hc with h | h
      · exact ih _ c h
      · simp at h; omega

theorem natDigits_ne_nil (fuel n : Nat) (h : n < fuel) : natDigits fuel n ≠ [] := by
  cases fuel with
  | zero => omega
  | succ f =>
    unfold natDigits
    split <;> simp

theorem parseDigits_append (acc : Nat) (xs : GoString) (d : Nat) :
    parseDigits acc (xs ++ [d]) =
      (parseDigits acc xs).bind fun v =>
        if 48 ≤ d ∧ d ≤ 57 then some (v * 10 + (d - 48)) else none := by
  induction xs generalizing acc with
  | nil => simp [parseDigits]
  | cons c cs ih =>
    simp only [List.cons_append, parseDigits]
    split
    · exact ih _
    · rfl

theorem parseDigits_natDigits (fuel n : Nat) (h : n < fuel) :
    parseDigits 0 (natDigits fuel n) = some n := by
  induction fuel generalizing n with
  | zero => omega
  | succ f ih =>
    unfold natDigits
    split
    · have h1 : 48 ≤ 48 + n ∧ 48 + n ≤ 57 := by omega
      simp [parseDigits, h1]
    · rw [parseDigits_append, ih (n / 10) (by omega)]
      have h1 : 48 ≤ 48 + n % 10 ∧ 48 + n % 10 ≤ 57 := by omega
      simp only [Option.some_bind, h1, and_self, if_true]
      congr 1
      omega

theorem strconv_Itoa_natCast (n : Nat) : strconv_Itoa (n : Int) = natDigits (n + 1) n := by
  unfold strconv_Itoa
  have : ¬ ((n : Int) < 0) := by omega
  simp [this]

theorem strconv_Itoa_isDigit (n : Nat) : ∀ c ∈ strconv_Itoa (n : Int), 48 ≤ c ∧ c ≤ 57 := by
  rw [strconv_Itoa_natCast]
  exact natDigits_isDigit _ _

theorem strconv_Itoa_ne_nil (n : Nat) : strconv_Itoa (n : Int) ≠ [] := by
  rw [strconv_Itoa_natCast]
  exact natDigits_ne_nil _ _ (by omega)

theorem strconv_Atoi_digits (ds : GoString) (n : Nat) (hne : ds ≠ [])
    (hd : ∀ c ∈ ds, 48 ≤ c ∧ c ≤ 57) (hp : parseDigits 0 ds = some n)
    (hn : n ≤ 9223372036854775807) : strconv_Atoi ds = some (n : Int) := by
  cases ds with
  | nil => exact absurd rfl hne
  | cons c cs =>
    have hc := hd c (by simp)
    have h45 : c ≠ 45 := by omega
    have h43 : c ≠ 43 := by omega
    simp [strconv_Atoi, h45, h43, hp, hn]

theorem strconv_Atoi_Itoa (n : Nat) (hn : n ≤ 9223372036854775807) :
    strconv_Atoi (strconv_Itoa (n : Int)) = some (n : Int) := by
  apply strconv_Atoi_digits _ _ (strconv_Itoa_ne_nil n) (strconv_Itoa_isDigit n) _ hn
  rw [strconv_Itoa_natCast]
  exact parseDigits_natDigits _ _ (by omega)

/-! ## Splitting and joining -/

theorem splitParts_of_not_mem (sep : Nat) (a : GoString) (h : ∀ c ∈ a, c ≠ sep) :
    splitParts sep a = (a, []) := by
  induction a with
  | nil => rfl
  | cons c cs ih =>
    have hc : c ≠ sep := h c (by simp)
    have ih1 := ih (fun x hx => h x (by simp [hx]))
    simp [splitParts, hc, ih1]

theorem splitParts_append_sep (sep : Nat) (a b : GoString) (h : ∀ c ∈ a, c ≠ sep) :
    splitParts sep (a ++ sep :: b) = (a, (splitParts sep b).1 :: (splitParts sep b).2) := by
  induction a with
  | nil => simp [splitParts]
  | cons c cs ih =>
    have hc : c ≠ sep := h c (by simp)
    have ih1 := ih (fun x hx => h x (by simp [hx]))
    simp [splitParts, hc, ih1]

theorem strings_Split_of_not_mem (sep : Nat) (a : GoString) (h : ∀ c ∈ a, c ≠ sep) :
    strings_Split a sep = [a] := by
  simp [strings_Split, splitParts_of_not_mem sep a h]

theorem strings_Split_append_sep (sep : Nat) (a b : GoString) (h : ∀ c ∈ a, c ≠ sep) :
    strings_Split (a ++ sep :: b) sep = a :: strings_Split b sep := by
  simp [strings_Split, splitParts_append_sep sep a b h]

theorem strings_Split_length_pos (s : GoString) (sep : Nat) : 0 < (strings_Split s sep).length := by
  simp [strings_Split]

theorem strings_Split_Join (sep : Nat) (ps : List GoString) (hne : ps ≠ [])
    (h : ∀ p ∈ ps, ∀ c ∈ p, c ≠ sep) : strings_Split (strings_Join ps sep) sep = ps := by
  induction ps with
  | nil => exact absurd rfl hne
  | cons p qs ih =>
    cases qs with
    | nil =>
      simp only [strings_Join]
      exact strings_Split_of_not_mem sep p (h p (by simp))
    | cons q rs =>
      simp only [strings_Join]
      rw [strings_Split_append_sep sep p _ (h p (by simp))]
      rw [ih (by simp) (fun x hx => h x (List.mem_cons_of_mem _ hx))]

theorem get_sub_sections_loop_Itoa (missing : Int) (ns : List Nat)
    (h : ∀ n ∈ ns, n ≤ 9223372036854775807) :
    KeyEventFromCSI.get_sub_sections_loop missing (ns.map fun (n : Nat) => strconv_Itoa (n : Int)) =
      some (ns.map fun (n : Nat) => (n : Int)) := by
  induction ns with
  | nil => rfl
  | cons n ms ih =>
    have ih1 := ih (fun x hx => h x (List.mem_cons_of_mem _ hx))
    simp only [List.map_cons, KeyEventFromCSI.get_sub_sections_loop]
    rw [if_neg (strconv_Itoa_ne_nil n), strconv_Atoi_Itoa n (h n (by simp)), ih1]
    rfl

theorem strconv_Itoa_no_sep (n : Nat) (sep : Nat) (hs : sep = 58 ∨ sep = 59) :
    ∀ c ∈ strconv_Itoa (n : Int), c ≠ sep := by
  intro c hc
  have := strconv_Itoa_isDigit n c hc
  omega

/-- Parsing a section made of the decimal forms of `ns` joined by colons. -/
theorem get_sub_sections_Join (missing : Int) (ns : List Nat) (hne : ns ≠ [])
    (h : ∀ n ∈ ns, n ≤ 9223372036854775807) :
    KeyEventFromCSI.get_sub_sections
        (strings_Join (ns.map fun (n : Nat) => strconv_Itoa (n : Int)) 58) missing =
      ns.map fun (n : Nat) => (n : Int) := by
  unfold KeyEventFromCSI.get_sub_sections
  rw [strings_Split_Join 58 _ (by simp [hne]), get_sub_sections_loop_Itoa missing ns h]
  · rfl
  · intro p hp c hc
    obtain ⟨n, -, rfl⟩ := List.mem_map.mp hp
    exact strconv_Itoa_no_sep n 58 (Or.inl rfl) c hc

/-! ## UTF-8 -/

theorem utf8_encodeNat_ne_nil (n : Nat) : utf8_encodeNat n ≠ [] := by
  unfold utf8_encodeNat
  split_ifs <;> simp

theorem utf8_encodeNat_length_pos (n : Nat) : 0 < (utf8_encodeNat n).length :=
  List.length_pos.mpr (utf8_encodeNat_ne_nil n)

theorem utf8_DecodeRune_encodeNat (n : Nat) (rest : GoString) (h1 : n < 0x110000)
    (h2 : ¬ (0xD800 ≤ n ∧ n ≤ 0xDFFF)) :
    utf8_DecodeRune (utf8_encodeNat n ++ rest) = (n, (utf8_encodeNat n).length) := by
  unfold utf8_encodeNat
  split_ifs with a b c
  · simp [utf8_DecodeRune, a]
  · have e1 : ¬ (192 + n / 64 < 128) := by omega
    have e2 : 194 ≤ 192 + n / 64 ∧ 192 + n / 64 ≤ 223 := by omega
    have e3 : isCont (128 + n % 64) = true := by simp [isCont]; omega
    simp only [List.cons_append, List.nil_append, utf8_DecodeRune, e1, e2, e3, if_true, if_false,
      and_self, List.length_cons, List.length_nil, Prod.mk.injEq,
      Nat.add_sub_cancel_left, and_true]
    omega
  · have e1 : ¬ (224 + n / 4096 < 128) := by omega
    have e2 : ¬ (194 ≤ 224 + n / 4096 ∧ 224 + n / 4096 ≤ 223) := by omega
    have e3 : 224 ≤ 224 + n / 4096 ∧ 224 + n / 4096 ≤ 239 := by omega
    have e4 : isCont (128 + n % 64) = true := by simp [isCont]; omega
    have e5 : (if 224 + n / 4096 = 224 then 160 else 128) ≤ 128 + n / 64 % 64 ∧
        128 + n / 64 % 64 ≤ (if 224 + n / 4096 = 237 then 159 else 191) := by
      split_ifs <;> omega
    simp only [List.cons_append, List.nil_append, utf8_DecodeRune, e1, e2, e3, e4, e5, if_true,
      if_false, and_self, List.length_cons, List.length_nil, Prod.mk.injEq,
      Nat.add_sub_cancel_left, and_true]
    omega
  · have e1 : ¬ (240 + n / 262144 < 128) := by omega
    have e2 : ¬ (194 ≤ 240 + n / 262144 ∧ 240 + n / 262144 ≤ 223) := by omega
    have e3 : ¬ (224 ≤ 240 + n / 262144 ∧ 240 + n / 262144 ≤ 239) := by omega
    have e3' : 240 ≤ 240 + n / 262144 ∧ 240 + n / 262144 ≤ 244 := by omega
    have e4 : isCont (128 + n % 64) = true := by simp [isCont]; omega
    have e4' : isCont (128 + n / 64 % 64) = true := by simp [isCont]; omega
    have e5 : (if 240 + n / 262144 = 240 then 144 else 128) ≤ 128 + n / 4096 % 64 ∧
        128 + n / 4096 % 64 ≤ (if 240 + n / 262144 = 244 then 143 else 191) := by
      split_ifs <;> omega
    simp only [List.cons_append, List.nil_append, utf8_DecodeRune, e1, e2, e3, e3', e4, e4', e5,
      if_true, if_false, and_self, List.length_cons, List.length_nil, Prod.mk.injEq,
      Nat.add_sub_cancel_left, and_true]
    omega

theorem validRune_iff (r : Int) :
    validRune r = true ↔ 0 ≤ r ∧ r ≤ 0x10FFFF ∧ ¬ (0xD800 ≤ r ∧ r ≤ 0xDFFF) := by
  simp [validRune]
  omega

theorem utf8_DecodeRune_EncodeRune (r : Int) (rest : GoString) (h : validRune r = true) :
    utf8_DecodeRune (utf8_EncodeRune r ++ rest) = (r.toNat, (utf8_EncodeRune r).length) := by
  have hv := (validRune_iff r).mp h
  simp only [utf8_EncodeRune, h, if_true]
  exact utf8_DecodeRune_encodeNat _ rest (by omega) (by omega)

theorem runesAux_fromRunes (rs : List Int) (h : ∀ r ∈ rs, validRune r = true) (fuel : Nat)
    (hf : rs.length ≤ fuel) : runesAux fuel (fromRunes rs) = rs := by
  induction rs generalizing fuel with
  | nil => cases fuel <;> simp [fromRunes, runesAux]
  | cons r rs ih =>
    have hr := h r (by simp)
    have hv := (validRune_iff r).mp hr
    cases fuel with
    | zero => simp at hf
    | succ f =>
      have hne : utf8_EncodeRune r ≠ [] := by
        simp only [utf8_EncodeRune, hr, if_true]; exact utf8_encodeNat_ne_nil _
      have hcons : fromRunes (r :: rs) = utf8_EncodeRune r ++ fromRunes rs := by
        simp [fromRunes]
      rw [hcons]
      obtain ⟨b, bs, hb⟩ := List.exists_cons_of_ne_nil hne
      have hd := utf8_DecodeRune_EncodeRune r (fromRunes rs) hr
      rw [hb] at hd ⊢
      simp only [List.cons_append] at hd ⊢
      simp only [runesAux, hd]
      have hdrop : List.drop (b :: bs).length (b :: (bs ++ fromRunes rs)) = fromRunes rs := by
        rw [← List.cons_append]; exact List.drop_left _ _
      rw [hdrop, ih (fun x hx => h x (List.mem_cons_of_mem _ hx)) f (by simpa using hf)]
      congr 1
      omega

theorem fromRunes_length (rs : List Int) : rs.length ≤ (fromRunes rs).length := by
  induction rs with
  | nil => simp
  | cons r rs ih =>
    have hcons : fromRunes (r :: rs) = utf8_EncodeRune r ++ fromRunes rs := by
      simp [fromRunes]
    have : 0 < (utf8_EncodeRune r).length := by
      unfold utf8_EncodeRune; split <;> exact utf8_encodeNat_length_pos _
    rw [hcons, List.length_append, List.length_cons]
    omega

/-- Decoding the UTF-8 encoding of a sequence of scalar values gives it back. -/
theorem toRunes_fromRunes (rs : List Int) (h : ∀ r ∈ rs, validRune r = true) :
    toRunes (fromRunes rs) = rs :=
  runesAux_fromRunes rs h _ (fromRunes_length rs)

/-! ## The decoder never leaves its checked accesses -/

theorem index_of_lt {α : Type} (xs : List α) (i : Nat) (d : α) (h : i < xs.length) :
    index xs i = .ok (xs.getD i d) := by
  unfold index
  rw [List.getD_eq_getElem?_getD]
  rw [List.getElem?_eq_getElem h]
  rfl

theorem sliceFrom_append_singleton (body : GoString) (c : Nat) :
    sliceFrom (body ++ [c]) (((body ++ [c]).length : Int) - 1) = .ok [c] := by
  unfold sliceFrom
  have h1 : (((body ++ [c]).length : Int) - 1) = (body.length : Int) := by simp
  rw [h1]
  have h2 : (0 : Int) ≤ body.length ∧ (body.length : Int) ≤ ((body ++ [c]).length : Int) := by
    simp
  rw [if_pos h2]
  simp

theorem sliceTo_append_singleton (body : GoString) (c : Nat) :
    sliceTo (body ++ [c]) (((body ++ [c]).length : Int) - 1) = .ok body := by
  unfold sliceTo
  have h1 : (((body ++ [c]).length : Int) - 1) = (body.length : Int) := by simp
  rw [h1]
  have h2 : (0 : Int) ≤ body.length ∧ (body.length : Int) ≤ ((body ++ [c]).length : Int) := by
    simp
  rw [if_pos h2]
  simp

theorem bind_ok {ε α β : Type} (a : α) (f : α → Except ε β) :
    (Except.ok a : Except ε α).bind f = f a := rfl

theorem guarded_index {α β : Type} (xs : List α) (i : Nat) (d : α) (g : α → β) (a : β) :
    (if xs.length > i then (index xs i).bind fun v => (.ok (g v) : Except GoPanic β)
      else .ok a) = .ok (if i < xs.length then g (xs.getD i d) else a) := by
  by_cases h : i < xs.length
  · simp only [gt_iff_lt, h, if_true, index_of_lt xs i d h, bind_ok]
  · simp only [gt_iff_lt, h, if_false]

/-- Closed form of `KeyEventFromCSI` on a non-empty payload: no access is out of
range, and the result is `decodeBody`. -/
theorem KeyEventFromCSI_append (body : GoString) (c : Nat) :
    KeyEventFromCSI (body ++ [c]) = .ok (decodeBody body c) := by
  unfold KeyEventFromCSI decodeBody
  have hlen : ¬ ((body ++ [c]).length = 0) := by simp
  rw [if_neg hlen]
  simp only [sliceFrom_append_singleton, sliceTo_append_singleton, bind_ok]
  split
  · rfl
  · rw [index_of_lt _ 0 [] (strings_Split_length_pos body 59)]
    simp only [bind_ok]
    rw [guarded_index (strings_Split body 59) 1 []
      (fun s1 => KeyEventFromCSI.get_sub_sections s1 1) []]
    rw [guarded_index (strings_Split body 59) 2 []
      (fun s2 => KeyEventFromCSI.get_sub_sections s2 0) []]
    simp only [bind_ok]
    have e1 : KeyEventFromCSI.get_sub_sections ((strings_Split body 59).getD 0 []) 0 =
        firstSection body := rfl
    have e2 : (if 1 < (strings_Split body 59).length then
        KeyEventFromCSI.get_sub_sections ((strings_Split body 59).getD 1 []) 1 else []) =
        secondSection body := rfl
    have e3 : (if 2 < (strings_Split body 59).length then
        KeyEventFromCSI.get_sub_sections ((strings_Split body 59).getD 2 []) 0 else []) =
        thirdSection body := rfl
    rw [e1, e2, e3]
    generalize firstSection body = first
    generalize secondSection body = second
    generalize thirdSection body = third
    have tail : ∀ keynum : Int,
        ((if first.length > 1 then
            (index first 1).bind fun v => (.ok { ({ Type_ := PRESS, CSI := body ++ [c], Key := KeyEventFromCSI.key_name [c] keynum } : KeyEvent) with ShiftedKey := KeyEventFromCSI.key_name [c] v } : Except GoPanic KeyEvent)
          else .ok { Type_ := PRESS, CSI := body ++ [c], Key := KeyEventFromCSI.key_name [c] keynum }).bind fun ans =>
        (if first.length > 2 then
            (index first 2).bind fun v =>
              (.ok { ans with AlternateKey := KeyEventFromCSI.key_name [c] v } : Except GoPanic KeyEvent)
          else .ok ans).bind fun ans =>
        (if second.length > 0 then
            (index second 0).bind fun v =>
              (.ok { ans with Mods := toUint16 (wrapInt64 (v - 1)) } : Except GoPanic KeyEvent)
          else .ok ans).bind fun ans =>
        (if second.length > 1 then
            (index second 1).bind fun v =>
              (.ok (if v = 2 then { ans with Type_ := REPEAT }
                else if v = 3 then { ans with Type_ := RELEASE } else ans) : Except GoPanic KeyEvent)
          else .ok ans).bind fun ans =>
        (.ok (some (if third.length > 0 then
            { ans with Text := fromRunes (third.map toRune) } else ans)) :
              Except GoPanic (Option KeyEvent))) =
        .ok (some (KeyEventFromCSI.assemble (body ++ [c]) [c] first second third keynum)) := by
      intro keynum
      unfold KeyEventFromCSI.assemble
      by_cases h1 : 1 < first.length <;> by_cases h2 : 2 < first.length <;>
        by_cases h3 : 0 < second.length <;> by_cases h4 : 1 < second.length <;>
        by_cases h5 : 0 < third.length <;>
        simp only [gt_iff_lt, h1, h2, h3, h4, h5, if_true, if_false, bind_ok,
          index_of_lt first 1 0, index_of_lt first 2 0, index_of_lt second 0 0,
          index_of_lt second 1 0] <;>
        first
          | rfl
          | (split_ifs <;> rfl)
    cases hL : List.lookup [c] letter_trailer_to_csi_number_map with
    | some val =>
      simp only [bind_ok]
      exact tail val
    | none =>
      simp only [bind_ok]
      by_cases h0 : first.length = 0
      · simp only [h0, if_true, bind_ok]
      · have h0' : 0 < first.length := Nat.pos_of_ne_zero h0
        simp only [h0, if_false, index_of_lt first 0 0 h0', bind_ok]
        exact tail _

/-! ## Table facts -/

theorem lookup_eq_none_of_forall_ne {α β : Type} [BEq α] [LawfulBEq α] (l : List (α × β)) (k : α)
    (h : ∀ p ∈ l, p.1 ≠ k) : l.lookup k = none := by
  induction l with
  | nil => rfl
  | cons p ps ih =>
    obtain ⟨a, b⟩ := p
    have hne : a ≠ k := h (a, b) (by simp)
    have hbeq : (k == a) = false := by
      simp only [beq_eq_false_iff_ne, ne_eq]
      exact fun e => hne e.symm
    simp only [List.lookup, hbeq]
    exact ih (fun q hq => h q (List.mem_cons_of_mem _ hq))

theorem mem_of_lookup_eq_some {α β : Type} [BEq α] [LawfulBEq α] (l : List (α × β)) (k : α)
    (v : β) (h : l.lookup k = some v) : (k, v) ∈ l := by
  induction l with
  | nil => simp [List.lookup] at h
  | cons p ps ih =>
    obtain ⟨a, b⟩ := p
    by_cases hk : (k == a) = true
    · simp only [List.lookup, hk] at h
      have : k = a := by simpa using hk
      cases this
      cases h
      simp
    · have hk' : (k == a) = false := by simpa using hk
      simp only [List.lookup, hk'] at h
      exact List.mem_cons_of_mem _ (ih h)

set_option maxRecDepth 100000 in
theorem name_table_facts :
    ∀ p ∈ name_to_functional_number_map, 2 ≤ p.1.length ∧ 0 ≤ p.2 ∧ p.2 ≤ 57454 := by
  decide

theorem functional_to_csi_facts :
    ∀ p ∈ functional_to_csi_number_map, 0 ≤ p.2 ∧ p.2 ≤ 127 := by
  decide

theorem letter_trailer_key_facts :
    ∀ p ∈ csi_number_to_letter_trailer_map, p.1 < 32 ∨ 126 < p.1 := by
  decide

theorem csi_to_functional_key_facts :
    ∀ p ∈ csi_number_to_functional_number_map, p.1 < 32 ∨ 126 < p.1 := by
  decide

theorem functional_name_key_facts :
    ∀ p ∈ functional_key_number_to_name_map, 126 < p.1 := by
  decide

/-- A one-byte name is no functional key name. -/
theorem name_lookup_singleton (k : Nat) : name_to_functional_number_map.lookup [k] = none := by
  apply lookup_eq_none_of_forall_ne
  intro p hp hk
  have := (name_table_facts p hp).1
  rw [hk] at this
  simp at this

theorem csi_number_for_name_singleton (k : Nat) : csi_number_for_name [k] = (k : Int) := by
  unfold csi_number_for_name
  have h1 : ¬ ([k] = ([] : GoString)) := by simp
  have h2 : ¬ ([k] = str "F3" ∨ [k] = str "ENTER") := by
    intro h
    rcases h with h | h <;>
    · have := congrArg List.length h
      rw [List.length_singleton] at this
      revert this
      decide
  rw [if_neg h1, if_neg h2, name_lookup_singleton]
  rfl

theorem csi_number_for_name_bounds (s : GoString) (hs : ∀ b ∈ s, b < 256) :
    0 ≤ csi_number_for_name s ∧ csi_number_for_name s ≤ 57454 := by
  unfold csi_number_for_name
  split_ifs with h1 h2
  · omega
  · omega
  · cases hn : name_to_functional_number_map.lookup s with
    | none =>
      simp only
      cases s with
      | nil => exact absurd rfl h1
      | cons b bs =>
        have := hs b (by simp)
        simp only [List.headD_cons]
        omega
    | some fn =>
      simp only
      have hfn := (name_table_facts _ (mem_of_lookup_eq_some _ _ _ hn)).2
      cases hc : functional_to_csi_number_map.lookup fn with
      | none => simpa using hfn
      | some a =>
        have := functional_to_csi_facts _ (mem_of_lookup_eq_some _ _ _ hc)
        simp only at this ⊢
        omega

/-- The decoder's `key_name` on the code of a printable ASCII character. -/
theorem key_name_printable (last_char : GoString) (k : Nat) (h1 : 32 ≤ k) (h2 : k ≤ 126) :
    KeyEventFromCSI.key_name last_char (k : Int) = [k] := by
  unfold KeyEventFromCSI.key_name
  have e0 : ¬ ((k : Int) = 0) := by omega
  have e13 : ¬ ((k : Int) = 13) := by omega
  rw [if_neg e0, if_neg e13]
  have l1 : csi_number_to_functional_number_map.lookup (k : Int) = none := by
    apply lookup_eq_none_of_forall_ne
    intro p hp hk
    have := csi_to_functional_key_facts p hp
    omega
  have l2 : functional_key_number_to_name_map.lookup (k : Int) = none := by
    apply lookup_eq_none_of_forall_ne
    intro p hp hk
    have := functional_name_key_facts p hp
    omega
  simp only [l1, l2]
  have hr : toRune (k : Int) = (k : Int) := by unfold toRune; omega
  have hv : validRune (k : Int) = true := by rw [validRune_iff]; omega
  rw [hr]
  simp only [utf8_EncodeRune, hv, if_true, Int.toNat_ofNat]
  unfold utf8_encodeNat
  rw [if_pos (by omega)]

theorem key_name_zero (last_char : GoString) : KeyEventFromCSI.key_name last_char 0 = [] := by
  simp [KeyEventFromCSI.key_name]

/-! ## Shape of the encoder's output -/

theorem append_ite {α : Type} (c : Prop) [Decidable c] (a x : List α) :
    (if c then a ++ x else a) = a ++ (if c then x else []) := by
  split <;> simp

theorem AsCSI_eq_blocks (e : KeyEvent) :
    e.AsCSI = 27 :: str "[" ++
      (AsCSI.firstBlock e ++ (AsCSI.secondBlock e ++ (AsCSI.thirdBlock e ++ AsCSI.finalTrailer e))) := by
  unfold KeyEvent.AsCSI
  lift_lets
  intro key sk ak tr0 tr1 key1 a0 a1 a2 a3 a4 action m a5 a6 runes codes a7 trailer
  have htr : tr1 = AsCSI.trailer0 e := rfl
  have hkey : key1 = AsCSI.keyNumber e := rfl
  have hact : action = AsCSI.action e := rfl
  have htrl : trailer = AsCSI.finalTrailer e := rfl
  have h4 : a4 = a0 ++ AsCSI.firstBlock e := by
    unfold AsCSI.firstBlock
    simp only [a4, a3, a2, a1, ← hkey]
    split_ifs <;> simp [sk, ak] at *
  have h6 : a6 = a4 ++ AsCSI.secondBlock e := by
    unfold AsCSI.secondBlock
    simp only [a6, a5, ← hact, m]
    split_ifs <;> first
      | (simp; done)
      | (exfalso; simp at *; omega)
      | (simp at *; simp_all)
  have h7 : a7 = a6 ++ AsCSI.thirdBlock e := by
    unfold AsCSI.thirdBlock
    simp only [a7, codes, runes]
    split_ifs <;> simp
  rw [h7, h6, h4, htrl]
  simp only [a0, List.append_assoc]

/-! ## Parsing the blocks back -/

theorem str_colon : str ":" = [58] := by decide
theorem str_semicolon : str ";" = [59] := by decide
theorem str_u : str "u" = [117] := by decide
theorem str_bracket : str "[" = [91] := by decide

theorem natDigits_lt_58 (fuel n : Nat) : ∀ c ∈ natDigits fuel n, c < 58 := by
  intro c hc
  have := natDigits_isDigit fuel n c hc
  omega

theorem strconv_Itoa_lt_58 (x : Int) : ∀ c ∈ strconv_Itoa x, c < 58 := by
  intro c hc
  unfold strconv_Itoa at hc
  split at hc
  · rcases List.mem_cons.mp hc with h | h
    · omega
    · exact natDigits_lt_58 _ _ c h
  · exact natDigits_lt_58 _ _ c hc

theorem utf8_DecodeRune_le (s : GoString) : (utf8_DecodeRune s).1 ≤ 0x10FFFF := by
  unfold utf8_DecodeRune
  repeat' split
  all_goals first
    | decide
    | (simp only [isCont, Bool.and_eq_true, decide_eq_true_eq] at *
       first
         | omega
         | (split_ifs <;> first
            | decide
            | (dsimp only; omega)))

theorem runesAux_bounded (fuel : Nat) (s : GoString) :
    ∃ ns : List Nat, runesAux fuel s = ns.map (fun (n : Nat) => (n : Int)) ∧
      ∀ n ∈ ns, n ≤ 0x10FFFF := by
  induction fuel generalizing s with
  | zero => exact ⟨[], by simp [runesAux], by simp⟩
  | succ f ih =>
    cases s with
    | nil => exact ⟨[], by simp [runesAux], by simp⟩
    | cons b bs =>
      obtain ⟨ns, h1, h2⟩ := ih ((b :: bs).drop (utf8_DecodeRune (b :: bs)).2)
      refine ⟨(utf8_DecodeRune (b :: bs)).1 :: ns, ?_, ?_⟩
      · simp only [runesAux, List.map_cons, h1]
      · intro n hn
        rcases List.mem_cons.mp hn with h | h
        · rw [h]; exact utf8_DecodeRune_le _
        · exact h2 n h

theorem toRunes_bounded (s : GoString) :
    ∃ ns : List Nat, toRunes s = ns.map (fun (n : Nat) => (n : Int)) ∧
      ∀ n ∈ ns, n ≤ 0x10FFFF :=
  runesAux_bounded _ s

theorem toRunes_ne_nil (s : GoString) (h : s ≠ []) : toRunes s ≠ [] := by
  cases s with
  | nil => exact absurd rfl h
  | cons b bs => simp [toRunes, runesAux]

theorem toRunes_nil : toRunes [] = [] := rfl

theorem toRune_of_bounded (n : Nat) (h : n ≤ 0x10FFFF) : toRune (n : Int) = (n : Int) := by
  unfold toRune
  omega

theorem map_toRune_cast (ns : List Nat) (h : ∀ n ∈ ns, n ≤ 0x10FFFF) :
    (ns.map (fun (n : Nat) => (n : Int))).map toRune = ns.map (fun (n : Nat) => (n : Int)) := by
  induction ns with
  | nil => rfl
  | cons a as ih =>
    simp only [List.map_cons]
    rw [toRune_of_bounded a (h a (by simp)), ih (fun x hx => h x (List.mem_cons_of_mem _ hx))]

theorem map_toRune_toRunes (s : GoString) : (toRunes s).map toRune = toRunes s := by
  obtain ⟨ns, h1, h2⟩ := toRunes_bounded s
  rw [h1]
  exact map_toRune_cast ns h2

/-- The text block parses back to the runes of the text. -/
theorem get_sub_sections_text (s : GoString) (h : s ≠ []) :
    KeyEventFromCSI.get_sub_sections (strings_Join ((toRunes s).map strconv_Itoa) 58) 0 =
      toRunes s := by
  have hne := toRunes_ne_nil s h
  obtain ⟨ns, h1, h2⟩ := toRunes_bounded s
  rw [h1] at hne ⊢
  rw [List.map_map]
  exact get_sub_sections_Join 0 ns (by simpa using hne) (fun n hn => by have := h2 n hn; omega)

theorem strings_Join_no_sep (ps : List GoString) (h : ∀ p ∈ ps, ∀ c ∈ p, c < 59) :
    ∀ c ∈ strings_Join ps 58, c < 59 := by
  induction ps with
  | nil => simp [strings_Join]
  | cons p qs ih =>
    cases qs with
    | nil => simpa [strings_Join] using h p (by simp)
    | cons q rs =>
      intro c hc
      simp only [strings_Join, List.mem_append, List.mem_cons] at hc
      rcases hc with hc | hc | hc
      · exact h p (by simp) c hc
      · omega
      · exact ih (fun x hx => h x (List.mem_cons_of_mem _ hx)) c hc

/-! ## The blocks for a printable ASCII key -/

theorem singleton_ne_ENTER (k : Nat) : ¬ ([k] = str "ENTER") := by
  intro h
  have := congrArg List.length h
  rw [List.length_singleton] at this
  revert this
  decide

theorem letter_trailer_lookup_printable (k : Nat) (h1 : 32 ≤ k) (h2 : k ≤ 126) :
    csi_number_to_letter_trailer_map.lookup (k : Int) = none := by
  apply lookup_eq_none_of_forall_ne
  intro p hp hk
  have := letter_trailer_key_facts p hp
  omega

theorem forall_ne_of_not_mem (sep : Nat) (a : GoString) (h : sep ∉ a) : ∀ c ∈ a, c ≠ sep :=
  fun _ hc e => h (e ▸ hc)

theorem semicolon_not_mem_Itoa (x : Int) : 59 ∉ strconv_Itoa x := by
  intro h
  have := strconv_Itoa_lt_58 x 59 h
  omega

theorem colon_not_mem_Itoa (n : Nat) : 58 ∉ strconv_Itoa (n : Int) := by
  intro h
  exact strconv_Itoa_no_sep n 58 (Or.inl rfl) 58 h rfl

theorem trailer0_printable (e : KeyEvent) (k : Nat) (h1 : 32 ≤ k) (h2 : k ≤ 126)
    (hKey : e.Key = [k]) : AsCSI.trailer0 e = str "u" := by
  unfold AsCSI.trailer0
  rw [hKey, if_neg (singleton_ne_ENTER k), csi_number_for_name_singleton,
    letter_trailer_lookup_printable k h1 h2]

theorem keyNumber_printable (e : KeyEvent) (k : Nat) (h1 : 32 ≤ k) (h2 : k ≤ 126)
    (hKey : e.Key = [k]) : AsCSI.keyNumber e = (k : Int) := by
  unfold AsCSI.keyNumber
  rw [trailer0_printable e k h1 h2 hKey, hKey, csi_number_for_name_singleton]
  simp

theorem finalTrailer_printable (e : KeyEvent) (k : Nat) (h1 : 32 ≤ k) (h2 : k ≤ 126)
    (hKey : e.Key = [k]) : AsCSI.finalTrailer e = [117] := by
  unfold AsCSI.finalTrailer
  rw [trailer0_printable e k h1 h2 hKey, hKey, name_lookup_singleton, str_u]

theorem firstBlock_printable (e : KeyEvent) (k sk ak : Nat) (h1 : 32 ≤ k) (h2 : k ≤ 126)
    (hKey : e.Key = [k]) (hsk : csi_number_for_name e.ShiftedKey = (sk : Int))
    (hak : csi_number_for_name e.AlternateKey = (ak : Int)) :
    AsCSI.firstBlock e = strconv_Itoa (k : Int) ++
      (if sk ≠ 0 ∨ ak ≠ 0 then
        58 :: ((if sk ≠ 0 then strconv_Itoa (sk : Int) else []) ++
          (if ak ≠ 0 then 58 :: strconv_Itoa (ak : Int) else []))
       else []) := by
  unfold AsCSI.firstBlock
  have hk1 : (k : Int) ≠ 1 := by omega
  rw [keyNumber_printable e k h1 h2 hKey, hsk, hak, str_colon]
  simp only [ne_eq, hk1, not_false_eq_true, true_or, if_true, Int.natCast_eq_zero,
    List.singleton_append]

theorem get_sub_sections_firstBlock (k sk ak : Nat) (hk : k ≤ 9223372036854775807)
    (hsk : sk ≤ 9223372036854775807) (hak : ak ≤ 9223372036854775807) :
    KeyEventFromCSI.get_sub_sections (strconv_Itoa (k : Int) ++
      (if sk ≠ 0 ∨ ak ≠ 0 then
        58 :: ((if sk ≠ 0 then strconv_Itoa (sk : Int) else []) ++
          (if ak ≠ 0 then 58 :: strconv_Itoa (ak : Int) else []))
       else [])) 0 =
    (k : Int) :: (if sk = 0 ∧ ak = 0 then [] else if ak = 0 then [(sk : Int)]
      else [(sk : Int), (ak : Int)]) := by
  have nk := strconv_Itoa_no_sep k 58 (Or.inl rfl)
  have nsk := strconv_Itoa_no_sep sk 58 (Or.inl rfl)
  have nak := strconv_Itoa_no_sep ak 58 (Or.inl rfl)
  unfold KeyEventFromCSI.get_sub_sections
  by_cases c1 : sk = 0 <;> by_cases c2 : ak = 0
  · rw [if_neg (by simp [c1, c2]), List.append_nil, strings_Split_of_not_mem 58 _ nk]
    simp [c1, c2, KeyEventFromCSI.get_sub_sections_loop,
      strconv_Itoa_ne_nil, strconv_Atoi_Itoa k hk]
  · rw [if_pos (Or.inr c2), if_neg (by simp [c1]), if_pos c2]
    rw [List.nil_append, strings_Split_append_sep 58 _ _ nk]
    have e : (58 :: strconv_Itoa (ak : Int)) = [] ++ 58 :: strconv_Itoa (ak : Int) := rfl
    rw [e, strings_Split_append_sep 58 [] _ (by simp), strings_Split_of_not_mem 58 _ nak]
    simp [c1, c2, KeyEventFromCSI.get_sub_sections_loop,
      strconv_Itoa_ne_nil, strconv_Atoi_Itoa k hk, strconv_Atoi_Itoa ak hak]
  · rw [if_pos (Or.inl c1), if_pos c1, if_neg (by simp [c2])]
    rw [List.append_nil, strings_Split_append_sep 58 _ _ nk, strings_Split_of_not_mem 58 _ nsk]
    simp [c1, c2, KeyEventFromCSI.get_sub_sections_loop,
      strconv_Itoa_ne_nil, strconv_Atoi_Itoa k hk, strconv_Atoi_Itoa sk hsk]
  · rw [if_pos (Or.inl c1), if_pos c1, if_pos c2]
    rw [strings_Split_append_sep 58 _ _ nk, strings_Split_append_sep 58 _ _ nsk,
      strings_Split_of_not_mem 58 _ nak]
    simp [c1, c2, KeyEventFromCSI.get_sub_sections_loop,
      strconv_Itoa_ne_nil, strconv_Atoi_Itoa k hk, strconv_Atoi_Itoa sk hsk,
      strconv_Atoi_Itoa ak hak]

theorem firstBlock_form_no_semicolon (k sk ak : Nat) :
    59 ∉ strconv_Itoa (k : Int) ++
      (if sk ≠ 0 ∨ ak ≠ 0 then
        58 :: ((if sk ≠ 0 then strconv_Itoa (sk : Int) else []) ++
          (if ak ≠ 0 then 58 :: strconv_Itoa (ak : Int) else []))
       else []) := by
  by_cases c1 : sk = 0 <;> by_cases c2 : ak = 0 <;>
    simp [c1, c2, semicolon_not_mem_Itoa]

theorem split_one (fb : GoString) (hfb : 59 ∉ fb) : strings_Split fb 59 = [fb] :=
  strings_Split_of_not_mem 59 fb (forall_ne_of_not_mem 59 fb hfb)

theorem split_two (fb mb : GoString) (hfb : 59 ∉ fb) (hmb : 59 ∉ mb) :
    strings_Split (fb ++ 59 :: mb) 59 = [fb, mb] := by
  rw [strings_Split_append_sep 59 fb mb (forall_ne_of_not_mem 59 fb hfb), split_one mb hmb]

theorem split_three (fb mb tb : GoString) (hfb : 59 ∉ fb) (hmb : 59 ∉ mb) (htb : 59 ∉ tb) :
    strings_Split (fb ++ 59 :: (mb ++ 59 :: tb)) 59 = [fb, mb, tb] := by
  rw [strings_Split_append_sep 59 fb _ (forall_ne_of_not_mem 59 fb hfb), split_two mb tb hmb htb]

theorem action_cases (e : KeyEvent) :
    AsCSI.action e = 1 ∨ AsCSI.action e = 2 ∨ AsCSI.action e = 3 := by
  unfold AsCSI.action
  split_ifs <;> simp

theorem toUint16_mods (m : Nat) (hm : m < 65536) :
    toUint16 (wrapInt64 (((m + 1 : Nat) : Int) - 1)) = m := by
  unfold toUint16 wrapInt64
  omega

theorem toUint16_one : toUint16 (wrapInt64 ((1 : Int) - 1)) = 0 := by
  decide

theorem get_sub_sections_nil_one : KeyEventFromCSI.get_sub_sections [] 1 = [1] := by
  decide

theorem get_sub_sections_mods (m : Nat) (hm : m < 65536) :
    KeyEventFromCSI.get_sub_sections (strconv_Itoa ((m + 1 : Nat) : Int)) 1 =
      [((m + 1 : Nat) : Int)] := by
  have := get_sub_sections_Join 1 [m + 1] (by simp) (by intro n hn; simp at hn; omega)
  simpa [strings_Join] using this

theorem get_sub_sections_mods_action (m a : Nat) (hm : m < 65536) (ha : a ≤ 3) :
    KeyEventFromCSI.get_sub_sections
        (strconv_Itoa ((m + 1 : Nat) : Int) ++ 58 :: strconv_Itoa (a : Int)) 1 =
      [((m + 1 : Nat) : Int), (a : Int)] := by
  have := get_sub_sections_Join 1 [m + 1, a] (by simp)
    (by intro n hn; simp at hn; rcases hn with h | h <;> omega)
  simpa [strings_Join] using this

theorem text_block_no_semicolon (s : GoString) :
    59 ∉ strings_Join ((toRunes s).map strconv_Itoa) 58 := by
  intro h
  have := strings_Join_no_sep ((toRunes s).map strconv_Itoa) (by
    intro p hp c hc
    obtain ⟨x, -, rfl⟩ := List.mem_map.mp hp
    have := strconv_Itoa_lt_58 x c hc
    omega) 59 h
  omega

/-! ## Decoding what the encoder wrote -/

theorem modBody_parse (e : KeyEvent) (hm : e.Mods < 65536) :
    59 ∉ strconv_Itoa ((e.Mods + 1 : Nat) : Int) ++
        (if AsCSI.action e > 1 then str ":" ++ strconv_Itoa (AsCSI.action e) else []) ∧
    KeyEventFromCSI.get_sub_sections (strconv_Itoa ((e.Mods + 1 : Nat) : Int) ++
        (if AsCSI.action e > 1 then str ":" ++ strconv_Itoa (AsCSI.action e) else [])) 1 =
      ((e.Mods + 1 : Nat) : Int) :: (if AsCSI.action e > 1 then [AsCSI.action e] else []) := by
  rw [str_colon]
  rcases action_cases e with h | h | h <;> rw [h]
  · refine ⟨by simp [semicolon_not_mem_Itoa], ?_⟩
    simpa using get_sub_sections_mods e.Mods hm
  · refine ⟨by simp [semicolon_not_mem_Itoa], ?_⟩
    simpa using get_sub_sections_mods_action e.Mods 2 hm (by omega)
  · refine ⟨by simp [semicolon_not_mem_Itoa], ?_⟩
    simpa using get_sub_sections_mods_action e.Mods 3 hm (by omega)

/-- The three parsed sections of the payload `AsCSI` writes for a printable
ASCII key. -/
theorem sections_printable (e : KeyEvent) (k sk ak : Nat) (h1 : 32 ≤ k) (h2 : k ≤ 126)
    (hKey : e.Key = [k]) (hsk : csi_number_for_name e.ShiftedKey = (sk : Int))
    (hak : csi_number_for_name e.AlternateKey = (ak : Int))
    (bsk : sk ≤ 57454) (bak : ak ≤ 57454) (hm : e.Mods < 65536) :
    firstSection (AsCSI.firstBlock e ++ (AsCSI.secondBlock e ++ AsCSI.thirdBlock e)) =
        (k : Int) :: (if sk = 0 ∧ ak = 0 then [] else if ak = 0 then [(sk : Int)]
          else [(sk : Int), (ak : Int)]) ∧
    secondSection (AsCSI.firstBlock e ++ (AsCSI.secondBlock e ++ AsCSI.thirdBlock e)) =
        (if AsCSI.action e > 1 ∨ e.Mods ≠ 0 then
          ((e.Mods + 1 : Nat) : Int) :: (if AsCSI.action e > 1 then [AsCSI.action e] else [])
         else if e.Text ≠ [] then [1] else []) ∧
    thirdSection (AsCSI.firstBlock e ++ (AsCSI.secondBlock e ++ AsCSI.thirdBlock e)) =
        toRunes e.Text := by
  have hfb := firstBlock_printable e k sk ak h1 h2 hKey hsk hak
  have nfb : 59 ∉ AsCSI.firstBlock e := by rw [hfb]; exact firstBlock_form_no_semicolon k sk ak
  have pfb : KeyEventFromCSI.get_sub_sections (AsCSI.firstBlock e) 0 =
      (k : Int) :: (if sk = 0 ∧ ak = 0 then [] else if ak = 0 then [(sk : Int)]
          else [(sk : Int), (ak : Int)]) := by
    rw [hfb]; exact get_sub_sections_firstBlock k sk ak (by omega) (by omega) (by omega)
  have ntb := text_block_no_semicolon e.Text
  have ptb : e.Text ≠ [] →
      KeyEventFromCSI.get_sub_sections (strings_Join ((toRunes e.Text).map strconv_Itoa) 58) 0 =
        toRunes e.Text := get_sub_sections_text e.Text
  obtain ⟨nmb, pmb⟩ := modBody_parse e hm
  unfold firstSection secondSection thirdSection AsCSI.secondBlock AsCSI.thirdBlock
  generalize AsCSI.firstBlock e = FB at nfb pfb ⊢
  generalize (strconv_Itoa ((e.Mods + 1 : Nat) : Int) ++
        (if AsCSI.action e > 1 then str ":" ++ strconv_Itoa (AsCSI.action e) else [])) = MB
    at nmb pmb ⊢
  generalize strings_Join ((toRunes e.Text).map strconv_Itoa) 58 = TB at ntb ptb ⊢
  generalize ((e.Mods + 1 : Nat) : Int) :: (if AsCSI.action e > 1 then [AsCSI.action e] else [])
    = MP at pmb ⊢
  rw [str_semicolon]
  by_cases cT : e.Text = []
  · by_cases cA : AsCSI.action e > 1 ∨ e.Mods ≠ 0
    · simp only [cT, cA, if_true, ne_eq, not_true_eq_false, if_false, List.append_nil,
        List.singleton_append, toRunes_nil]
      rw [split_two FB _ nfb nmb]
      simp [pfb, pmb]
    · simp only [cT, cA, if_false, ne_eq, not_true_eq_false, List.append_nil, toRunes_nil]
      rw [split_one FB nfb]
      simp [pfb]
  · by_cases cA : AsCSI.action e > 1 ∨ e.Mods ≠ 0
    · simp only [cT, cA, if_true, ne_eq, not_false_eq_true, List.singleton_append,
        List.cons_append, List.nil_append]
      rw [split_three FB _ _ nfb nmb ntb]
      simp [pfb, pmb, ptb cT]
    · simp only [cT, cA, if_false, if_true, ne_eq, not_false_eq_true, List.singleton_append,
        List.cons_append, List.nil_append]
      have e0 : (59 :: TB) = [] ++ 59 :: TB := rfl
      rw [e0, split_three FB [] _ nfb (by simp) ntb]
      simp [pfb, get_sub_sections_nil_one, ptb cT]

theorem accepts_u : strings_Contains (str "u~ABCDEHFPQRS") [117] = true := by decide

theorem u_ne_tilde : decide (([117] : GoString) = str "~") = false := by decide

theorem letter_lookup_u : letter_trailer_to_csi_number_map.lookup [117] = none := by decide

theorem fromRunes_nil : fromRunes [] = [] := rfl

/-- Decoding the payload `AsCSI` writes for an event whose key is a printable
ASCII character: every field of the result in terms of the event. -/
theorem decode_AsCSI_printable (e : KeyEvent) (k : Nat) (h1 : 32 ≤ k) (h2 : k ≤ 126)
    (hKey : e.Key = [k]) (hS : ∀ b ∈ e.ShiftedKey, b < 256)
    (hA : ∀ b ∈ e.AlternateKey, b < 256) (hm : e.Mods < 65536) :
    KeyEventFromCSI (e.AsCSI.drop 2) = .ok (some
      { Type_ := if e.Type_ = REPEAT then REPEAT else if e.Type_ = RELEASE then RELEASE else PRESS
        Mods := e.Mods
        Key := e.Key
        ShiftedKey := KeyEventFromCSI.key_name [117] (csi_number_for_name e.ShiftedKey)
        AlternateKey := KeyEventFromCSI.key_name [117] (csi_number_for_name e.AlternateKey)
        Text := fromRunes (toRunes e.Text)
        Handled := false
        CSI := e.AsCSI.drop 2 }) := by
  have bS := csi_number_for_name_bounds e.ShiftedKey hS
  have bA := csi_number_for_name_bounds e.AlternateKey hA
  obtain ⟨sk, hsk⟩ := Int.eq_ofNat_of_zero_le bS.1
  obtain ⟨ak, hak⟩ := Int.eq_ofNat_of_zero_le bA.1
  have bsk : sk ≤ 57454 := by have := bS.2; omega
  have bak : ak ≤ 57454 := by have := bA.2; omega
  have hdrop : e.AsCSI.drop 2 =
      (AsCSI.firstBlock e ++ (AsCSI.secondBlock e ++ AsCSI.thirdBlock e)) ++ [117] := by
    rw [AsCSI_eq_blocks e, str_bracket, finalTrailer_printable e k h1 h2 hKey]
    simp
  obtain ⟨s1, s2, s3⟩ := sections_printable e k sk ak h1 h2 hKey hsk hak bsk bak hm
  rw [hdrop, KeyEventFromCSI_append]
  unfold decodeBody
  simp only [accepts_u, u_ne_tilde, Bool.not_true, Bool.false_and, Bool.or_false,
    Bool.false_eq_true, if_false, letter_lookup_u]
  rw [s1, s2, s3]
  simp only [List.length_cons, Nat.succ_ne_zero, if_false, Nat.add_eq_zero, and_false,
    one_ne_zero]
  unfold KeyEventFromCSI.assemble
  simp only [Except.ok.injEq, Option.some.injEq, KeyEvent.mk.injEq, and_true]
  refine ⟨?_, ?_, ?_, ?_, ?_, ?_⟩
  · by_cases t2 : e.Type_ = REPEAT
    · have ha : AsCSI.action e = 2 := by simp [AsCSI.action, t2]
      rw [ha, if_pos t2]
      simp
    · by_cases t4 : e.Type_ = RELEASE
      · have ha : AsCSI.action e = 3 := by
          unfold AsCSI.action
          rw [if_neg t2, if_pos t4]
        rw [ha, if_neg t2, if_pos t4]
        simp
      · have ha : AsCSI.action e = 1 := by simp [AsCSI.action, t2, t4]
        rw [ha, if_neg t2, if_neg t4]
        by_cases m0 : e.Mods = 0 <;> by_cases cT : e.Text = [] <;> simp [m0, cT]
  · rcases action_cases e with h | h | h <;>
      by_cases m0 : e.Mods = 0 <;> by_cases cT : e.Text = [] <;>
      simp only [h, m0, cT, gt_iff_lt, lt_self_iff_false, false_or, ne_eq, not_true_eq_false,
        not_false_eq_true, if_true, if_false, List.length_cons, List.length_nil,
        Nat.lt_irrefl, List.getD_cons_zero, toUint16_one, Nat.zero_lt_succ, true_or,
        or_true, Int.reduceLT] <;>
      first
        | rfl
        | exact toUint16_mods e.Mods hm
  · simp only [List.getD_cons_zero, hKey]
    exact key_name_printable [117] k h1 h2
  · rw [hsk]
    by_cases c1 : sk = 0 <;> by_cases c2 : ak = 0 <;> simp [c1, c2, key_name_zero]
  · rw [hak]
    by_cases c1 : sk = 0 <;> by_cases c2 : ak = 0 <;> simp [c1, c2, key_name_zero]
  · rw [map_toRune_toRunes]
    cases hr : toRunes e.Text with
    | nil => simp [fromRunes_nil]
    | cons r rs => simp

/-! ## Claims about the round trip -/

theorem AsCSI_introducer (e : KeyEvent) : e.AsCSI = 27 :: 91 :: e.AsCSI.drop 2 := by
  rw [AsCSI_eq_blocks e, str_bracket]
  rfl

set_option maxRecDepth 100000 in
theorem functional_keys_checked : ∀ k < 111,
    (match functional_key_number_to_name_map.lookup (57344 + (k : Nat) : Int) with
     | some name =>
       (match KeyEventFromCSI ((KeyEvent.AsCSI { Key := name, Type_ := PRESS, Mods := 0 }).drop 2) with
        | .ok (some ev) => decide (ev.Key = name ∧ ev.Type_ = PRESS)
        | _ => false)
     | none => false) = true := by
  decide

/-- C1: for every functional key number `n` of the table (57344..57454), encoding the
event with key `name(n)`, type PRESS and no modifiers with `AsCSI` gives ESC [ followed
by a payload that `KeyEventFromCSI` decodes to an event with key `name(n)` and type
PRESS. -/
theorem functional_key_round_trip (n : Int) (h1 : 57344 ≤ n) (h2 : n ≤ 57454) :
    ∃ name payload ev,
      functional_key_number_to_name_map.lookup n = some name ∧
      KeyEvent.AsCSI { Key := name, Type_ := PRESS, Mods := 0 } = 27 :: 91 :: payload ∧
      KeyEventFromCSI payload = .ok (some ev) ∧
      ev.Key = name ∧ ev.Type_ = PRESS := by
  obtain ⟨k, hk⟩ := Int.eq_ofNat_of_zero_le (show 0 ≤ n - 57344 by omega)
  have hn : n = (57344 + (k : Nat) : Int) := by omega
  have hlt : k < 111 := by omega
  have := functional_keys_checked k hlt
  rw [← hn] at this
  split at this
  · rename_i name hname
    split at this
    · rename_i ev hev
      have hdec := of_decide_eq_true this
      exact ⟨name, _, ev, hname, AsCSI_introducer _, hev, hdec.1, hdec.2⟩
    · exact absurd this (by simp)
  · exact absurd this (by simp)

/-- C1, at the key number 57366 (F3, written `13~`). -/
theorem functional_key_round_trip_witness :
    ∃ name payload ev,
      functional_key_number_to_name_map.lookup 57366 = some name ∧
      KeyEvent.AsCSI { Key := name, Type_ := PRESS, Mods := 0 } = 27 :: 91 :: payload ∧
      KeyEventFromCSI payload = .ok (some ev) ∧
      ev.Key = name ∧ ev.Type_ = PRESS :=
  functional_key_round_trip 57366 (by decide) (by decide)

theorem str_a : str "a" = [97] := by decide

theorem csi_number_for_name_nil : csi_number_for_name [] = 0 := by decide

theorem AsCSI_a_payload (m : Nat) :
    (KeyEvent.AsCSI { Key := str "a", Mods := m }).drop 2 =
      str "97" ++ (if m = 0 then [] else 59 :: strconv_Itoa ((m + 1 : Nat) : Int)) ++ str "u" := by
  have hk : ({ Key := str "a", Mods := m } : KeyEvent).Key = [97] := str_a
  have hb := firstBlock_printable { Key := str "a", Mods := m } 97 0 0 (by omega) (by omega) hk
    csi_number_for_name_nil csi_number_for_name_nil
  rw [AsCSI_eq_blocks, str_bracket, finalTrailer_printable _ 97 (by omega) (by omega) hk, hb]
  have h97 : strconv_Itoa ((97 : Nat) : Int) = str "97" := by decide
  have hact : AsCSI.action { Key := str "a", Mods := m } = 1 := rfl
  unfold AsCSI.secondBlock AsCSI.thirdBlock
  rw [h97, hact, str_u, str_semicolon]
  by_cases hm : m = 0 <;> simp [hm]

/-- C2: for every modifier set `m` in 0..255, `AsCSI` on the event with key "a" and
modifiers `m` writes ESC [ and the payload `97u` when `m` is 0, `97;<m+1>u` otherwise,
and `KeyEventFromCSI` decodes that payload to an event whose modifiers are exactly `m`
and whose key is "a". -/
theorem modifier_bias_round_trip (m : Nat) (hm : m ≤ 255) :
    ∃ payload ev,
      KeyEvent.AsCSI { Key := str "a", Mods := m } = 27 :: 91 :: payload ∧
      payload = str "97" ++ (if m = 0 then [] else 59 :: strconv_Itoa ((m + 1 : Nat) : Int))
        ++ str "u" ∧
      KeyEventFromCSI payload = .ok (some ev) ∧
      ev.Mods = m ∧ ev.Key = str "a" := by
  have hk : ({ Key := str "a", Mods := m } : KeyEvent).Key = [97] := str_a
  have hd := decode_AsCSI_printable { Key := str "a", Mods := m } 97 (by omega) (by omega) hk
    (by simp) (by simp) (show m < 65536 by omega)
  exact ⟨_, _, AsCSI_introducer _, AsCSI_a_payload m, hd, rfl, rfl⟩

/-- C2, at the modifier set 255 (all eight flags). -/
theorem modifier_bias_round_trip_witness :
    ∃ payload ev,
      KeyEvent.AsCSI { Key := str "a", Mods := 255 } = 27 :: 91 :: payload ∧
      payload = str "97" ++ (if 255 = 0 then [] else 59 :: strconv_Itoa ((255 + 1 : Nat) : Int))
        ++ str "u" ∧
      KeyEventFromCSI payload = .ok (some ev) ∧
      ev.Mods = 255 ∧ ev.Key = str "a" :=
  modifier_bias_round_trip 255 (by decide)

theorem csi_number_for_name_optional (s : GoString)
    (h : s = [] ∨ ∃ c, 32 ≤ c ∧ c ≤ 126 ∧ s = [c]) :
    (∀ b ∈ s, b < 256) ∧ KeyEventFromCSI.key_name [117] (csi_number_for_name s) = s := by
  rcases h with rfl | ⟨c, c1, c2, rfl⟩
  · exact ⟨by simp, by rw [csi_number_for_name_nil]; exact key_name_zero _⟩
  · refine ⟨by intro b hb; simp at hb; omega, ?_⟩
    rw [csi_number_for_name_singleton]
    exact key_name_printable [117] c c1 c2

/-- C3: for every event whose key is one printable ASCII character, whose shifted and
alternate keys are each empty or one printable ASCII character, whose modifiers are in
0..255, whose type is PRESS, REPEAT or RELEASE and whose text is valid UTF-8 (the
encoding of a sequence `rs` of Unicode scalar values), `AsCSI` writes ESC [ followed by
a payload that `KeyEventFromCSI` decodes to an event with the same type, modifiers, key,
shifted key, alternate key and text. -/
theorem literal_key_round_trip (e : KeyEvent) (rs : List Int)
    (hKey : ∃ c, 32 ≤ c ∧ c ≤ 126 ∧ e.Key = [c])
    (hShifted : e.ShiftedKey = [] ∨ ∃ c, 32 ≤ c ∧ c ≤ 126 ∧ e.ShiftedKey = [c])
    (hAlternate : e.AlternateKey = [] ∨ ∃ c, 32 ≤ c ∧ c ≤ 126 ∧ e.AlternateKey = [c])
    (hMods : e.Mods ≤ 255)
    (hType : e.Type_ = PRESS ∨ e.Type_ = REPEAT ∨ e.Type_ = RELEASE)
    (hScalars : ∀ r ∈ rs, validRune r = true) (hText : e.Text = fromRunes rs) :
    ∃ payload ev,
      e.AsCSI = 27 :: 91 :: payload ∧
      KeyEventFromCSI payload = .ok (some ev) ∧
      ev.Type_ = e.Type_ ∧ ev.Mods = e.Mods ∧ ev.Key = e.Key ∧
      ev.ShiftedKey = e.ShiftedKey ∧ ev.AlternateKey = e.AlternateKey ∧ ev.Text = e.Text := by
  obtain ⟨k, k1, k2, hk⟩ := hKey
  obtain ⟨bS, rS⟩ := csi_number_for_name_optional e.ShiftedKey hShifted
  obtain ⟨bA, rA⟩ := csi_number_for_name_optional e.AlternateKey hAlternate
  have hd := decode_AsCSI_printable e k k1 k2 hk bS bA (by omega)
  refine ⟨_, _, AsCSI_introducer e, hd, ?_, rfl, rfl, rS, rA, ?_⟩
  · rcases hType with h | h | h <;> rw [h] <;> rfl
  · show fromRunes (toRunes e.Text) = e.Text
    rw [hText, toRunes_fromRunes rs hScalars]

/-- C3, at a RELEASE of "a" with shifted key "A", alternate key "q", all eight
modifier flags and the text "aé€" followed by U+1F600. -/
theorem literal_key_round_trip_witness :
    ∃ payload ev,
      KeyEvent.AsCSI
          { Type_ := RELEASE, Mods := 255, Key := str "a", ShiftedKey := str "A",
            AlternateKey := str "q", Text := fromRunes [97, 233, 8364, 128512] } =
        27 :: 91 :: payload ∧
      KeyEventFromCSI payload = .ok (some ev) ∧
      ev.Type_ = RELEASE ∧ ev.Mods = 255 ∧ ev.Key = str "a" ∧
      ev.ShiftedKey = str "A" ∧ ev.AlternateKey = str "q" ∧
      ev.Text = fromRunes [97, 233, 8364, 128512] :=
  literal_key_round_trip
    { Type_ := RELEASE, Mods := 255, Key := str "a", ShiftedKey := str "A",
      AlternateKey := str "q", Text := fromRunes [97, 233, 8364, 128512] }
    [97, 233, 8364, 128512]
    ⟨97, by decide, by decide, by decide⟩
    (Or.inr ⟨65, by decide, by decide, by decide⟩)
    (Or.inr ⟨113, by decide, by decide, by decide⟩)
    (by decide) (Or.inr (Or.inr rfl)) (by decide) rfl

/-! ## Claims about what the decoder accepts -/

/-- C4, as stated, fails: `AsCSI` on the PRESS of "a" returns ESC [ 9 7 u, introducer
included, and `KeyEventFromCSI` applied to that return value as it is gives no event. -/
theorem decode_of_AsCSI_as_is_rejected :
    KeyEvent.AsCSI { Key := str "a", Type_ := PRESS } = 27 :: str "[97u" ∧
    KeyEventFromCSI (KeyEvent.AsCSI { Key := str "a", Type_ := PRESS }) = .ok none := by
  decide

/-- C4, amended: `AsCSI` returns the introducer ESC [ followed by a payload in the
decoder's input format; for every event whose key is one printable ASCII character
(its other strings being byte strings and its modifiers a `uint16`), `KeyEventFromCSI`
applied to the return value without the two introducer bytes is an event whose key is
the key of the encoded event. -/
theorem decode_of_AsCSI_payload (e : KeyEvent) (hKey : ∃ c, 32 ≤ c ∧ c ≤ 126 ∧ e.Key = [c])
    (hShifted : ∀ b ∈ e.ShiftedKey, b < 256) (hAlternate : ∀ b ∈ e.AlternateKey, b < 256)
    (hMods : e.Mods < 65536) :
    ∃ payload ev,
      e.AsCSI = 27 :: 91 :: payload ∧
      KeyEventFromCSI payload = .ok (some ev) ∧ ev.Key = e.Key := by
  obtain ⟨k, k1, k2, hk⟩ := hKey
  exact ⟨_, _, AsCSI_introducer e,
    decode_AsCSI_printable e k k1 k2 hk hShifted hAlternate hMods, rfl⟩

/-- C4 amended, at a REPEAT of "z" with a functional shifted key, an alternate key and
a text that is not valid UTF-8. -/
theorem decode_of_AsCSI_payload_witness :
    ∃ payload ev,
      KeyEvent.AsCSI
          { Type_ := REPEAT, Mods := 5, Key := str "z", ShiftedKey := str "F5",
            AlternateKey := str "Z", Text := [200, 65] } = 27 :: 91 :: payload ∧
      KeyEventFromCSI payload = .ok (some ev) ∧ ev.Key = str "z" :=
  decode_of_AsCSI_payload
    { Type_ := REPEAT, Mods := 5, Key := str "z", ShiftedKey := str "F5",
      AlternateKey := str "Z", Text := [200, 65] }
    ⟨122, by decide, by decide, by decide⟩ (by decide) (by decide) (by decide)

theorem strings_Contains_singleton (s : GoString) (c : Nat) :
    strings_Contains s [c] = decide (c ∈ s) := by
  unfold strings_Contains
  induction s with
  | nil => simp [List.isPrefixOf]
  | cons a as ih =>
    simp only [List.tails, List.any_cons, ih, List.isPrefixOf, Bool.and_true, List.mem_cons]
    by_cases h : c = a <;> simp [h]

/-- C5: `KeyEventFromCSI` returns no event for the empty payload, for every payload whose
final byte is not one of `u ~ A B C D E H F P Q R S`, and for the two bracketed-paste
payloads `200~` and `201~`. -/
theorem rejection_rule :
    KeyEventFromCSI [] = .ok none ∧
    (∀ (csi : GoString) (c : Nat), csi.getLast? = some c → c ∉ str "u~ABCDEHFPQRS" →
      KeyEventFromCSI csi = .ok none) ∧
    KeyEventFromCSI (str "200~") = .ok none ∧
    KeyEventFromCSI (str "201~") = .ok none := by
  refine ⟨by decide, ?_, by decide, by decide⟩
  intro csi c hlast hc
  have hcsi : csi.dropLast ++ [c] = csi := List.dropLast_append_getLast? c hlast
  rw [← hcsi, KeyEventFromCSI_append]
  unfold decodeBody
  rw [strings_Contains_singleton]
  simp [hc]

/-- C5, at the payload `97x`, whose final byte `x` is not an accepted one. -/
theorem rejection_rule_witness : KeyEventFromCSI (str "97x") = .ok none :=
  rejection_rule.2.1 (str "97x") 120 (by decide) (by decide)

/-- C6 fails on the code: a non-numeric subsection in the second or third section, or
in the first section of a payload with a letter trailer, does not abort decoding. The
payloads `97;xu`, `97;;xu` and `xA` are decoded to events. -/
theorem non_numeric_subsection_not_aborting :
    KeyEventFromCSI (str "97;xu") =
      .ok (some { Type_ := PRESS, Key := str "a", CSI := str "97;xu" }) ∧
    KeyEventFromCSI (str "97;;xu") =
      .ok (some { Type_ := PRESS, Key := str "a", CSI := str "97;;xu" }) ∧
    KeyEventFromCSI (str "xA") =
      .ok (some { Type_ := PRESS, Key := str "UP", CSI := str "xA" }) := by
  decide

/-- C7: on every input `KeyEventFromCSI` returns a value, no event or an event; none of
its checked index and slice accesses is out of range. -/
theorem decoder_never_panics (csi : GoString) :
    KeyEventFromCSI csi = .ok none ∨ ∃ ev, KeyEventFromCSI csi = .ok (some ev) := by
  rcases List.eq_nil_or_concat' csi with rfl | ⟨body, c, rfl⟩
  · exact Or.inl (by decide)
  · rw [KeyEventFromCSI_append]
    cases decodeBody body c with
    | none => exact Or.inl rfl
    | some ev => exact Or.inr ⟨ev, rfl⟩

/-! ## Claims about key names -/

theorem letter_table_eq : letter_trailer_to_csi_number_map =
    [([65], 57352), ([66], 57353), ([67], 57351), ([68], 57350), ([69], 57427), ([70], 8),
     ([72], 7), ([80], 11), ([81], 12), ([83], 14)] := by
  decide

theorem letter_lookup_none (c : Nat) (h : c ∉ str "ABCDEFHPQS") :
    letter_trailer_to_csi_number_map.lookup [c] = none := by
  have hs : str "ABCDEFHPQS" = [65, 66, 67, 68, 69, 70, 72, 80, 81, 83] := by decide
  rw [hs] at h
  simp only [List.mem_cons, List.mem_singleton, List.not_mem_nil, or_false, not_or] at h
  apply lookup_eq_none_of_forall_ne
  intro p hp hpc
  rw [letter_table_eq] at hp
  simp only [List.mem_cons, List.mem_singleton, List.not_mem_nil, or_false] at hp
  rcases hp with rfl | rfl | rfl | rfl | rfl | rfl | rfl | rfl | rfl | rfl <;>
    simp only [List.cons.injEq, and_true] at hpc <;> omega

theorem strconv_Atoi_nil : strconv_Atoi [] = none := rfl

/-- The first number of the first parsed section is what `strconv.Atoi` reads in the
first subsection, when the section parses at all. -/
theorem firstSection_head (body : GoString) (v : Int)
    (hv : strconv_Atoi ((strings_Split ((strings_Split body 59).headD []) 58).headD []) = some v)
    (hne : (firstSection body).length ≠ 0) : (firstSection body).getD 0 0 = v := by
  unfold firstSection KeyEventFromCSI.get_sub_sections at hne ⊢
  have hs : ∀ (s : GoString) (sep : Nat),
      strings_Split s sep = (strings_Split s sep).headD [] :: (splitParts sep s).2 := by
    intro s sep; rfl
  have h0 : (strings_Split body 59).getD 0 [] = (strings_Split body 59).headD [] := by
    rw [hs body 59]; rfl
  rw [h0] at hne ⊢
  generalize (strings_Split body 59).headD [] = s0 at hv hne ⊢
  rw [hs s0 58] at hne ⊢
  generalize (strings_Split s0 58).headD [] = p0 at hv hne ⊢
  have hp0 : p0 ≠ [] := by
    intro h; rw [h, strconv_Atoi_nil] at hv; exact absurd hv (by simp)
  simp only [KeyEventFromCSI.get_sub_sections_loop, hp0, if_false, hv] at hne ⊢
  cases hl : KeyEventFromCSI.get_sub_sections_loop 0 (splitParts 58 s0).2 with
  | none => rw [hl] at hne; simp at hne
  | some r => simp

/-- C8: for every payload that `KeyEventFromCSI` decodes to an event, whose final byte
is not a letter of the letter-trailer table and whose first section starts with the
number 13, the key of the event is "ENTER" when the final byte is `u` and "F3"
otherwise; in particular `13u` decodes to the key "ENTER". -/
theorem key_13_by_trailer :
    (∀ (body : GoString) (c : Nat) (ev : KeyEvent),
      KeyEventFromCSI (body ++ [c]) = .ok (some ev) →
      c ∉ str "ABCDEFHPQS" →
      strconv_Atoi ((strings_Split ((strings_Split body 59).headD []) 58).headD []) = some 13 →
      ev.Key = if [c] = str "u" then str "ENTER" else str "F3") ∧
    KeyEventFromCSI (str "13u") =
      .ok (some { Type_ := PRESS, Key := str "ENTER", CSI := str "13u" }) := by
  refine ⟨?_, by decide⟩
  intro body c ev hdec hc h13
  rw [KeyEventFromCSI_append] at hdec
  have hdec' : decodeBody body c = some ev := by simpa using hdec
  unfold decodeBody at hdec'
  rw [letter_lookup_none c hc] at hdec'
  split at hdec'
  · exact absurd hdec' (by simp)
  · simp only at hdec'
    split at hdec'
    · exact absurd hdec' (by simp)
    · rename_i hne
      have hev : ev = _ := (Option.some.inj hdec').symm
      rw [hev, firstSection_head body 13 h13 hne]
      simp [KeyEventFromCSI.assemble, KeyEventFromCSI.key_name]

/-- C8, at the payload `13;5~` (F3 with modifiers). -/
theorem key_13_by_trailer_witness :
    KeyEventFromCSI (str "13;5" ++ [126]) =
        .ok (some { Type_ := PRESS, Mods := 4, Key := str "F3", CSI := str "13;5~" }) ∧
      ({ Type_ := PRESS, Mods := 4, Key := str "F3", CSI := str "13;5~" } : KeyEvent).Key =
        if [126] = str "u" then str "ENTER" else str "F3" :=
  ⟨by decide,
    key_13_by_trailer.1 (str "13;5") 126
      { Type_ := PRESS, Mods := 4, Key := str "F3", CSI := str "13;5~" }
      (by decide) (by decide) (by decide)⟩

/-- C9, as stated, fails: `KeyEventFromCSI` does not reject the payload `13~`. -/
theorem tilde_13_not_rejected : KeyEventFromCSI (str "13~") ≠ .ok none := by
  decide

/-- C9, amended: decoding the payload `13~` is accepted and yields the PRESS event of
the key "F3" with no modifiers. -/
theorem tilde_13_is_F3 :
    KeyEventFromCSI (str "13~") =
      .ok (some { Type_ := PRESS, Mods := 0, Key := str "F3", CSI := str "13~" }) := by
  decide

theorem decode_letter (body : GoString) (c : Nat) (val : Int)
    (hacc : strings_Contains (str "u~ABCDEHFPQRS") [c] = true)
    (hnt : decide ([c] = str "~") = false)
    (hl : letter_trailer_to_csi_number_map.lookup [c] = some val) :
    KeyEventFromCSI (body ++ [c]) = .ok (some
      (KeyEventFromCSI.assemble (body ++ [c]) [c] (firstSection body) (secondSection body)
        (thirdSection body) val)) := by
  rw [KeyEventFromCSI_append]
  unfold decodeBody
  simp only [hacc, hnt, Bool.not_true, Bool.false_and, Bool.or_false, Bool.false_eq_true,
    if_false, hl]

/-- C10: for every payload whose final byte is a letter of the letter-trailer table,
`KeyEventFromCSI` returns an event, and the key of the event it returns is the name
mapped from the letter (A UP, B DOWN, C RIGHT, D LEFT, E KP_BEGIN, F END, H HOME, P F1,
Q F2, S F4), whatever the first section contains; in particular `13P` decodes to the
key "F1". -/
theorem letter_trailer_precedence :
    (∀ (p : GoString × GoString),
      p ∈ [(str "A", str "UP"), (str "B", str "DOWN"), (str "C", str "RIGHT"),
           (str "D", str "LEFT"), (str "E", str "KP_BEGIN"), (str "F", str "END"),
           (str "H", str "HOME"), (str "P", str "F1"), (str "Q", str "F2"),
           (str "S", str "F4")] →
      ∀ body : GoString,
        (∃ ev, KeyEventFromCSI (body ++ p.1) = .ok (some ev)) ∧
        (∀ ev, KeyEventFromCSI (body ++ p.1) = .ok (some ev) → ev.Key = p.2)) ∧
    KeyEventFromCSI (str "13P") =
      .ok (some { Type_ := PRESS, Key := str "F1", CSI := str "13P" }) := by
  refine ⟨?_, by decide⟩
  intro p hp body
  have key : ∀ (c : Nat) (val : Int) (name : GoString),
      strings_Contains (str "u~ABCDEHFPQRS") [c] = true →
      decide ([c] = str "~") = false →
      letter_trailer_to_csi_number_map.lookup [c] = some val →
      KeyEventFromCSI.key_name [c] val = name →
      (∃ ev, KeyEventFromCSI (body ++ [c]) = .ok (some ev)) ∧
        (∀ ev, KeyEventFromCSI (body ++ [c]) = .ok (some ev) → ev.Key = name) := by
    intro c val name a1 a2 a3 a4
    rw [decode_letter body c val a1 a2 a3]
    refine ⟨⟨_, rfl⟩, ?_⟩
    intro ev hev
    have : ev = _ := ((Option.some.inj (Except.ok.inj hev))).symm
    rw [this]
    exact a4
  simp only [List.mem_cons, List.mem_singleton, List.not_mem_nil, or_false] at hp
  rcases hp with rfl | rfl | rfl | rfl | rfl | rfl | rfl | rfl | rfl | rfl
  · exact key 65 57352 _ (by decide) (by decide) (by decide) (by decide)
  · exact key 66 57353 _ (by decide) (by decide) (by decide) (by decide)
  · exact key 67 57351 _ (by decide) (by decide) (by decide) (by decide)
  · exact key 68 57350 _ (by decide) (by decide) (by decide) (by decide)
  · exact key 69 57427 _ (by decide) (by decide) (by decide) (by decide)
  · exact key 70 8 _ (by decide) (by decide) (by decide) (by decide)
  · exact key 72 7 _ (by decide) (by decide) (by decide) (by decide)
  · exact key 80 11 _ (by decide) (by decide) (by decide) (by decide)
  · exact key 81 12 _ (by decide) (by decide) (by decide) (by decide)
  · exact key 83 14 _ (by decide) (by decide) (by decide) (by decide)

/-- C10, at the payload `97:65;5:3;120E`, a full payload with the trailer `E`. -/
theorem letter_trailer_precedence_witness :
    (∃ ev, KeyEventFromCSI (str "97:65;5:3;120" ++ str "E") = .ok (some ev)) ∧
    (∀ ev, KeyEventFromCSI (str "97:65;5:3;120" ++ str "E") = .ok (some ev) →
      ev.Key = str "KP_BEGIN") :=
  letter_trailer_precedence.1 (str "E", str "KP_BEGIN") (by decide) (str "97:65;5:3;120")

/-! ## Claims about key names and the encoder's numbers -/

theorem functional_names_ne_nil : ∀ p ∈ functional_key_number_to_name_map, p.2 ≠ [] := by
  decide

theorem ENTER_mem : ((57345 : Int), str "ENTER") ∈ functional_key_number_to_name_map := by
  decide

theorem F3_mem : ((57366 : Int), str "F3") ∈ functional_key_number_to_name_map := by
  decide

theorem utf8_EncodeRune_ne_nil (r : Int) : utf8_EncodeRune r ≠ [] := by
  unfold utf8_EncodeRune
  split <;> exact utf8_encodeNat_ne_nil _

theorem utf8_EncodeRune_single (x : Int) :
    ∃ r, validRune r = true ∧ utf8_EncodeRune x = utf8_EncodeRune r := by
  by_cases h : validRune x = true
  · exact ⟨x, h, rfl⟩
  · refine ⟨65533, by decide, ?_⟩
    have h2 : validRune 65533 = true := by decide
    simp only [utf8_EncodeRune, h, h2, if_true, if_false, Bool.false_eq_true]
    rfl

/-- What the decoder's `key_name` returns: nothing for 0 only, otherwise a functional
key name or the UTF-8 encoding of one Unicode scalar value. -/
theorem key_name_facts (lc : GoString) (k : Int) :
    (KeyEventFromCSI.key_name lc k = [] ↔ k = 0) ∧
    (k ≠ 0 →
      (∃ p ∈ functional_key_number_to_name_map, KeyEventFromCSI.key_name lc k = p.2) ∨
      ∃ r, validRune r = true ∧ KeyEventFromCSI.key_name lc k = utf8_EncodeRune r) := by
  unfold KeyEventFromCSI.key_name
  by_cases h0 : k = 0
  · simp [h0]
  · rw [if_neg h0]
    by_cases h13 : k = 13
    · rw [if_pos h13]
      by_cases hu : lc = str "u"
      · rw [if_pos hu]
        exact ⟨⟨fun h => absurd h (by decide), fun h => absurd h h0⟩,
          fun _ => Or.inl ⟨_, ENTER_mem, rfl⟩⟩
      · rw [if_neg hu]
        exact ⟨⟨fun h => absurd h (by decide), fun h => absurd h h0⟩,
          fun _ => Or.inl ⟨_, F3_mem, rfl⟩⟩
    · rw [if_neg h13]
      simp only
      generalize (match csi_number_to_functional_number_map.lookup k with
        | some val => val
        | none => k) = k2
      cases hl : functional_key_number_to_name_map.lookup k2 with
      | some val =>
        have hm := mem_of_lookup_eq_some _ _ _ hl
        have hne := functional_names_ne_nil _ hm
        exact ⟨⟨fun h => absurd h hne, fun h => absurd h h0⟩, fun _ => Or.inl ⟨_, hm, rfl⟩⟩
      | none =>
        exact ⟨⟨fun h => absurd h (utf8_EncodeRune_ne_nil _), fun h => absurd h h0⟩,
          fun _ => Or.inr (utf8_EncodeRune_single _)⟩


/-- C11: for every payload that `KeyEventFromCSI` decodes to an event, the key of the
event is empty exactly when the resolved key number is 0, and when that number is not
0 the key is a name of `functional_key_number_to_name_map` or one character (the UTF-8
encoding of one Unicode scalar value). -/
theorem key_name_invariant (body : GoString) (c : Nat) (ev : KeyEvent)
    (h : KeyEventFromCSI (body ++ [c]) = .ok (some ev)) :
    (ev.Key = [] ↔ resolvedKeyNumber body c = 0) ∧
    (resolvedKeyNumber body c ≠ 0 →
      (∃ p ∈ functional_key_number_to_name_map, ev.Key = p.2) ∨
      ∃ r, validRune r = true ∧ ev.Key = utf8_EncodeRune r) := by
  rw [KeyEventFromCSI_append] at h
  have hd : decodeBody body c = some ev := by simpa using h
  have hkey : ev.Key = KeyEventFromCSI.key_name [c] (resolvedKeyNumber body c) := by
    unfold decodeBody at hd
    unfold resolvedKeyNumber
    split at hd
    · exact absurd hd (by simp)
    · cases hl : letter_trailer_to_csi_number_map.lookup [c] with
      | some val =>
        rw [hl] at hd
        rw [← Option.some.inj hd]
        rfl
      | none =>
        rw [hl] at hd
        simp only at hd
        split at hd
        · exact absurd hd (by simp)
        · rw [← Option.some.inj hd]
          rfl
  rw [hkey]
  exact key_name_facts [c] (resolvedKeyNumber body c)

/-- C11, at the payloads `;5u` (key number 0, empty key) and `233u` (the key "é"). -/
theorem key_name_invariant_witness :
    ((({ Type_ := PRESS, Mods := 4, CSI := str ";5u" } : KeyEvent).Key = [] ↔
        resolvedKeyNumber (str ";5") 117 = 0) ∧
      (resolvedKeyNumber (str ";5") 117 ≠ 0 →
        (∃ p ∈ functional_key_number_to_name_map,
          ({ Type_ := PRESS, Mods := 4, CSI := str ";5u" } : KeyEvent).Key = p.2) ∨
        ∃ r, validRune r = true ∧
          ({ Type_ := PRESS, Mods := 4, CSI := str ";5u" } : KeyEvent).Key =
            utf8_EncodeRune r)) ∧
    ((({ Type_ := PRESS, Key := str "é", CSI := str "233u" } : KeyEvent).Key = [] ↔
        resolvedKeyNumber (str "233") 117 = 0) ∧
      (resolvedKeyNumber (str "233") 117 ≠ 0 →
        (∃ p ∈ functional_key_number_to_name_map,
          ({ Type_ := PRESS, Key := str "é", CSI := str "233u" } : KeyEvent).Key = p.2) ∨
        ∃ r, validRune r = true ∧
          ({ Type_ := PRESS, Key := str "é", CSI := str "233u" } : KeyEvent).Key =
            utf8_EncodeRune r)) :=
  ⟨key_name_invariant (str ";5") 117 { Type_ := PRESS, Mods := 4, CSI := str ";5u" }
      (by decide),
    key_name_invariant (str "233") 117 { Type_ := PRESS, Key := str "é", CSI := str "233u" }
      (by decide)⟩

/-- C12 fails on the code for a character outside ASCII: `csi_number_for_name` reads
the first byte of the name, not its first rune. For "é" (U+00E9, bytes C3 A9) it
returns 195 where the code point is 233, `AsCSI` writes `195u`, and the decoder maps
that payload to the key "Ã", not "é"; for the ASCII name "a" it returns 97. -/
theorem csi_number_for_name_first_byte :
    csi_number_for_name (str "é") = 195 ∧
    toRunes (str "é") = [233] ∧
    KeyEvent.AsCSI { Key := str "é", Type_ := PRESS } = 27 :: str "[195u" ∧
    KeyEventFromCSI (str "195u") =
      .ok (some { Type_ := PRESS, Key := str "Ã", CSI := str "195u" }) ∧
    KeyEventFromCSI (str "233u") =
      .ok (some { Type_ := PRESS, Key := str "é", CSI := str "233u" }) ∧
    csi_number_for_name (str "a") = 97 := by
  decide

/-- C13 fails on the code when only the action needs a second section: for a REPEAT or
RELEASE of a letter-trailer key with no modifiers, no text and no shifted or alternate
key, `AsCSI` writes the second section without the placeholder key number (`;1:3P`
for the RELEASE of F1). With modifiers the placeholder 1 is written (`1;5:3P`), and
with nothing to add the payload is the bare letter (`P`). -/
theorem letter_trailer_placeholder_missing :
    KeyEvent.AsCSI { Key := str "F1", Type_ := RELEASE } = 27 :: str "[;1:3P" ∧
    KeyEvent.AsCSI { Key := str "UP", Type_ := REPEAT } = 27 :: str "[;1:2A" ∧
    KeyEvent.AsCSI { Key := str "F1", Type_ := RELEASE, Mods := 4 } = 27 :: str "[1;5:3P" ∧
    KeyEvent.AsCSI { Key := str "F1", Type_ := PRESS, Text := str "x" } =
      27 :: str "[1;;120P" ∧
    KeyEvent.AsCSI { Key := str "F1", Type_ := PRESS } = 27 :: str "[P" := by
  decide

/-! ## Claims about shortcut matching -/

/-- C14: for every event and mask with the event type intersecting the mask, if the
shifted key is not empty and the modifiers without the lock flags contain SHIFT, the
event matches the shortcut whose modifiers are those modifiers with SHIFT removed and
whose key name is the shifted key; in particular the PRESS of "1" with shifted key "!"
and SHIFT matches the shortcut with no modifiers and key name "!" under PRESS. -/
theorem shifted_key_fallback :
    (∀ (e : KeyEvent) (mask : Nat),
      e.Type_ &&& mask ≠ 0 → e.ShiftedKey ≠ [] →
      KeyModifiers.WithoutLocks e.Mods &&& SHIFT ≠ 0 →
      e.MatchesParsedShortcut
        { Mods := KeyModifiers.WithoutLocks e.Mods &&& complement16 SHIFT,
          KeyName := e.ShiftedKey } mask = true) ∧
    KeyEvent.MatchesParsedShortcut
      { Type_ := PRESS, Key := str "1", ShiftedKey := str "!", Mods := SHIFT }
      { Mods := 0, KeyName := str "!" } PRESS = true := by
  refine ⟨?_, by decide⟩
  intro e mask hT hS hM
  unfold KeyEvent.MatchesParsedShortcut
  rw [if_neg hT]
  dsimp only
  split_ifs with a b
  · rfl
  · rfl
  · exact absurd ⟨hS, hM, rfl, rfl⟩ b

/-- C14, at the RELEASE of "2" with shifted key "@", SHIFT, CTRL and CAPS_LOCK, under
the mask RELEASE. -/
theorem shifted_key_fallback_witness :
    KeyEvent.MatchesParsedShortcut
      { Type_ := RELEASE, Key := str "2", ShiftedKey := str "@",
        Mods := SHIFT ||| CTRL ||| CAPS_LOCK }
      { Mods := KeyModifiers.WithoutLocks (SHIFT ||| CTRL ||| CAPS_LOCK) &&&
          complement16 SHIFT,
        KeyName := str "@" } RELEASE = true :=
  shifted_key_fallback.1
    { Type_ := RELEASE, Key := str "2", ShiftedKey := str "@",
      Mods := SHIFT ||| CTRL ||| CAPS_LOCK }
    RELEASE (by decide) (by decide) (by decide)

/-- C15, as stated, fails: the PRESS of "A" with shifted key "a" and SHIFT is not
refused by the shortcut with no modifiers and key name "a" under PRESS. -/
theorem shifted_a_not_refused :
    KeyEvent.MatchesParsedShortcut
      { Type_ := PRESS, Key := str "A", ShiftedKey := str "a", Mods := SHIFT }
      { Mods := 0, KeyName := str "a" } PRESS ≠ false := by
  decide

/-- C15, amended: the PRESS of "A" with shifted key "a" and SHIFT matches the shortcut
with no modifiers and key name "a" under PRESS, through the shifted-key fallback: the
same event without its shifted key does not match. -/
theorem shifted_a_matches_by_fallback :
    KeyEvent.MatchesParsedShortcut
      { Type_ := PRESS, Key := str "A", ShiftedKey := str "a", Mods := SHIFT }
      { Mods := 0, KeyName := str "a" } PRESS = true ∧
    KeyEvent.MatchesParsedShortcut
      { Type_ := PRESS, Key := str "A", Mods := SHIFT }
      { Mods := 0, KeyName := str "a" } PRESS = false := by
  decide

theorem WithoutLocks_set (m l : Nat)
    (hl : l = CAPS_LOCK ∨ l = NUM_LOCK ∨ l = CAPS_LOCK ||| NUM_LOCK) :
    KeyModifiers.WithoutLocks (m ||| l) = KeyModifiers.WithoutLocks m := by
  unfold KeyModifiers.WithoutLocks
  rw [Nat.and_distrib_right]
  have h0 : l &&& complement16 (CAPS_LOCK ||| NUM_LOCK) = 0 := by
    rcases hl with rfl | rfl | rfl <;> decide
  rw [h0, Nat.or_zero]

theorem WithoutLocks_clear (m l : Nat)
    (hl : l = CAPS_LOCK ∨ l = NUM_LOCK ∨ l = CAPS_LOCK ||| NUM_LOCK) :
    KeyModifiers.WithoutLocks (m &&& complement16 l) = KeyModifiers.WithoutLocks m := by
  unfold KeyModifiers.WithoutLocks
  rw [Nat.and_assoc]
  have h0 : complement16 l &&& complement16 (CAPS_LOCK ||| NUM_LOCK) =
      complement16 (CAPS_LOCK ||| NUM_LOCK) := by
    rcases hl with rfl | rfl | rfl <;> decide
  rw [h0]

theorem Matches_congr_mods (e : KeyEvent) (m : Nat) (ps : ParsedShortcut) (mask : Nat)
    (h : KeyModifiers.WithoutLocks m = KeyModifiers.WithoutLocks e.Mods) :
    KeyEvent.MatchesParsedShortcut { e with Mods := m } ps mask =
      e.MatchesParsedShortcut ps mask := by
  unfold KeyEvent.MatchesParsedShortcut
  simp only [h]

/-- C16: for every event, parsed shortcut and mask, setting or clearing CAPS_LOCK,
NUM_LOCK or both in the modifiers of the event does not change the result of
`MatchesParsedShortcut`; in particular the PRESS of "x" with CTRL and CAPS_LOCK matches
the shortcut with modifiers CTRL and key name "x". -/
theorem lock_flags_ignored :
    (∀ (e : KeyEvent) (ps : ParsedShortcut) (mask l : Nat),
      l = CAPS_LOCK ∨ l = NUM_LOCK ∨ l = CAPS_LOCK ||| NUM_LOCK →
      KeyEvent.MatchesParsedShortcut { e with Mods := e.Mods ||| l } ps mask =
          e.MatchesParsedShortcut ps mask ∧
      KeyEvent.MatchesParsedShortcut { e with Mods := e.Mods &&& complement16 l } ps mask =
          e.MatchesParsedShortcut ps mask) ∧
    KeyEvent.MatchesParsedShortcut
      { Type_ := PRESS, Key := str "x", Mods := CTRL ||| CAPS_LOCK }
      { Mods := CTRL, KeyName := str "x" } PRESS = true := by
  refine ⟨?_, by decide⟩
  intro e ps mask l hl
  exact ⟨Matches_congr_mods e _ ps mask (WithoutLocks_set e.Mods l hl),
    Matches_congr_mods e _ ps mask (WithoutLocks_clear e.Mods l hl)⟩

/-- C16, at the REPEAT of "x" with CTRL and NUM_LOCK, setting CAPS_LOCK and clearing
both lock flags, against the shortcut CTRL "x" under the mask PRESS or REPEAT. -/
theorem lock_flags_ignored_witness :
    KeyEvent.MatchesParsedShortcut
        { ({ Type_ := REPEAT, Key := str "x", Mods := CTRL ||| NUM_LOCK } : KeyEvent) with
          Mods := (CTRL ||| NUM_LOCK) ||| CAPS_LOCK }
        { Mods := CTRL, KeyName := str "x" } (PRESS ||| REPEAT) =
      KeyEvent.MatchesParsedShortcut
        { Type_ := REPEAT, Key := str "x", Mods := CTRL ||| NUM_LOCK }
        { Mods := CTRL, KeyName := str "x" } (PRESS ||| REPEAT) ∧
    KeyEvent.MatchesParsedShortcut
        { ({ Type_ := REPEAT, Key := str "x", Mods := CTRL ||| NUM_LOCK } : KeyEvent) with
          Mods := (CTRL ||| NUM_LOCK) &&& complement16 CAPS_LOCK }
        { Mods := CTRL, KeyName := str "x" } (PRESS ||| REPEAT) =
      KeyEvent.MatchesParsedShortcut
        { Type_ := REPEAT, Key := str "x", Mods := CTRL ||| NUM_LOCK }
        { Mods := CTRL, KeyName := str "x" } (PRESS ||| REPEAT) :=
  lock_flags_ignored.1 { Type_ := REPEAT, Key := str "x", Mods := CTRL ||| NUM_LOCK }
    { Mods := CTRL, KeyName := str "x" } (PRESS ||| REPEAT) CAPS_LOCK (Or.inl rfl)

/-- C17: `MatchesParsedShortcut` returns false whenever the event type does not
intersect the mask, whatever the key and modifiers; `MatchesRelease` returns false for
every PRESS event, whatever the spec, the tables and the cache. -/
theorem type_must_intersect_mask :
    (∀ (e : KeyEvent) (ps : ParsedShortcut) (mask : Nat),
      e.Type_ &&& mask = 0 → e.MatchesParsedShortcut ps mask = false) ∧
    (∀ (t : KittyTables) (cache : List (GoString × ParsedShortcut)) (e : KeyEvent)
      (spec : GoString), e.Type_ = PRESS → (e.MatchesRelease t cache spec).1 = false) := by
  have h1 : ∀ (e : KeyEvent) (ps : ParsedShortcut) (mask : Nat),
      e.Type_ &&& mask = 0 → e.MatchesParsedShortcut ps mask = false := by
    intro e ps mask h
    unfold KeyEvent.MatchesParsedShortcut
    rw [if_pos h]
  refine ⟨h1, ?_⟩
  intro t cache e spec hP
  unfold KeyEvent.MatchesRelease
  exact h1 e _ RELEASE (by rw [hP]; decide)

/-- C17, at the PRESS of "x" with CTRL against the shortcut CTRL "x", which it matches
under the mask PRESS, under the mask RELEASE. -/
theorem type_must_intersect_mask_witness :
    KeyEvent.MatchesParsedShortcut { Type_ := PRESS, Key := str "x", Mods := CTRL }
        { Mods := CTRL, KeyName := str "x" } PRESS = true ∧
    KeyEvent.MatchesParsedShortcut { Type_ := PRESS, Key := str "x", Mods := CTRL }
        { Mods := CTRL, KeyName := str "x" } RELEASE = false ∧
    (KeyEvent.MatchesRelease ⟨[], [], [(str "CTRL", 4)], fun r => r⟩ []
        { Type_ := PRESS, Key := str "x", Mods := CTRL } (str "ctrl+x")).1 = false :=
  ⟨by decide,
    type_must_intersect_mask.1 { Type_ := PRESS, Key := str "x", Mods := CTRL }
      { Mods := CTRL, KeyName := str "x" } RELEASE (by decide),
    type_must_intersect_mask.2 ⟨[], [], [(str "CTRL", 4)], fun r => r⟩ []
      { Type_ := PRESS, Key := str "x", Mods := CTRL } (str "ctrl+x") rfl⟩

/-! ## Claims about the shortcut parser -/

/-- C18: with the cache as explicit state, a call of `ParseShortcut` returns a result
that the cache holds under the exact spec afterwards; a second call with the same spec,
even with other alias and modifier tables, returns the same result and leaves the cache
as it is; the entries of the other specs are as before the first call. -/
theorem ParseShortcut_cached (t t2 : KittyTables) (cache : List (GoString × ParsedShortcut))
    (spec : GoString) :
    (ParseShortcut t cache spec).2.lookup spec = some (ParseShortcut t cache spec).1 ∧
    ParseShortcut t2 (ParseShortcut t cache spec).2 spec =
      ((ParseShortcut t cache spec).1, (ParseShortcut t cache spec).2) ∧
    (∀ other : GoString, other ≠ spec →
      (ParseShortcut t cache spec).2.lookup other = cache.lookup other) := by
  unfold ParseShortcut
  cases h : cache.lookup spec with
  | some val =>
    simp only [h]
    exact ⟨trivial, trivial, fun _ _ => trivial⟩
  | none =>
    simp only [List.lookup_cons, beq_self_eq_true]
    refine ⟨trivial, trivial, ?_⟩
    intro other hne
    have hb : (other == spec) = false := by simpa using hne
    simp only [hb]

theorem str_plus_sign : str "+" = [43] := by decide

theorem str_plus_word : str "plus" = [112, 108, 117, 115] := by decide

theorem HasSuffix_plus_sign (s : GoString) : strings_HasSuffix (s ++ str "+") (str "+") = true := by
  rw [str_plus_sign]
  simp [strings_HasSuffix]

theorem HasSuffix_plus_word (s : GoString) :
    strings_HasSuffix (s ++ str "plus") (str "+") = false := by
  rw [str_plus_sign, str_plus_word]
  simp [strings_HasSuffix, List.isSuffixOf, List.reverse_append, List.isPrefixOf]

theorem parts_plus_sign (s : GoString) :
    ParseShortcut.parts (s ++ str "+") = strings_Split (s ++ str "plus") 43 := by
  unfold ParseShortcut.parts
  simp only [HasSuffix_plus_sign, if_true]
  rw [str_plus_sign, List.dropLast_concat]

theorem parts_plus_word (s : GoString) :
    ParseShortcut.parts (s ++ str "plus") = strings_Split (s ++ str "plus") 43 := by
  unfold ParseShortcut.parts
  simp only [HasSuffix_plus_word, if_false, Bool.false_eq_true]

theorem splitParts_append (sep : Nat) (a b : GoString) (hb : sep ∉ b) :
    splitParts sep (a ++ b) =
      if (splitParts sep a).2 = [] then ((splitParts sep a).1 ++ b, [])
      else ((splitParts sep a).1,
        (splitParts sep a).2.dropLast ++ [(splitParts sep a).2.getLastD [] ++ b]) := by
  induction a with
  | nil =>
    simp [splitParts, splitParts_of_not_mem sep b (forall_ne_of_not_mem sep b hb)]
  | cons c cs ih =>
    simp only [List.cons_append, splitParts, List.append_eq]
    rw [ih]
    by_cases hc : c = sep
    · by_cases h2 : (splitParts sep cs).2 = []
      · simp [hc, h2]
      · obtain ⟨u, us, hu⟩ := List.exists_cons_of_ne_nil h2
        simp [hc, hu, List.getLastD_cons]
    · by_cases h2 : (splitParts sep cs).2 = []
      · simp [hc, h2]
      · simp [hc, h2]

/-- The last piece of a split string that ends in a separator-free, non-empty text is
not empty. -/
theorem last_part_ne_nil (sep : Nat) (a b : GoString) (hb : sep ∉ b) (hne : b ≠ []) :
    (strings_Split (a ++ b) sep).getLastD [] ≠ [] := by
  unfold strings_Split
  rw [splitParts_append sep a b hb]
  by_cases h2 : (splitParts sep a).2 = []
  · simp [h2, hne]
  · rw [if_neg h2]
    simp only [List.getLastD_eq_getLast?, List.getLast?_cons, List.getLast?_append,
      List.getLast?_singleton]
    simp [hne]

end KeyEncoding
namespace KeyEncoding

theorem parse_congr (t : KittyTables) (s1 s2 : GoString)
    (h : ParseShortcut.parts s1 = ParseShortcut.parts s2) :
    ParseShortcut.parse t s1 = ParseShortcut.parse t s2 := by
  unfold ParseShortcut.parse
  rw [h]

theorem ParseShortcut_miss (t : KittyTables) (cache : List (GoString × ParsedShortcut))
    (spec : GoString) (h : cache.lookup spec = none) :
    (ParseShortcut t cache spec).1 = ParseShortcut.parse t spec := by
  unfold ParseShortcut
  rw [h]

theorem mods_loop_spec (t : KittyTables) (qs : List GoString) (ans : ParsedShortcut) :
    ParseShortcut.mods_loop t ans qs =
      { Mods := qs.foldl (fun m q =>
          match t.ConfigModMap.lookup (strings_ToUpper t.unicode_ToUpper q) with
          | some val => m ||| (val % 65536)
          | none => m ||| (META <<< 8)) ans.Mods,
        KeyName := ans.KeyName } := by
  induction qs generalizing ans with
  | nil => rfl
  | cons q qs ih =>
    unfold ParseShortcut.mods_loop at ih ⊢
    rw [List.foldl_cons, List.foldl_cons, ih]
    cases t.ConfigModMap.lookup (strings_ToUpper t.unicode_ToUpper q) <;> rfl

theorem strings_ToUpper_ascii (up : Int → Int) (s : GoString)
    (h : s.all (fun b => decide (b < 128)) = true) :
    strings_ToUpper up s = s.map asciiUpper := by
  unfold strings_ToUpper
  rw [if_pos h]

theorem parts_ctrl_plus : ParseShortcut.parts (str "ctrl++") = [str "ctrl", str "plus"] := by
  decide

theorem ToUpper_ctrl (up : Int → Int) : strings_ToUpper up (str "ctrl") = str "CTRL" := by
  rw [strings_ToUpper_ascii up _ (by decide)]
  decide

/-- C19: on a cache miss `ParseShortcut` returns for `s + "+"` what it returns for
`s + "plus"`, for every string `s`; `ctrl++` parses to the modifiers of the token
`ctrl` and to the key name the key token `plus` resolves to; and the key token of a
spec that ends in `+` is never empty. -/
theorem trailing_plus_is_plus_key :
    (∀ (t : KittyTables) (cache : List (GoString × ParsedShortcut)) (s : GoString),
      cache.lookup (s ++ str "+") = none → cache.lookup (s ++ str "plus") = none →
      (ParseShortcut t cache (s ++ str "+")).1 = (ParseShortcut t cache (s ++ str "plus")).1) ∧
    (∀ (t : KittyTables) (cache : List (GoString × ParsedShortcut)),
      cache.lookup (str "ctrl++") = none →
      (ParseShortcut t cache (str "ctrl++")).1.Mods =
        (match t.ConfigModMap.lookup (str "CTRL") with
         | some val => val % 65536
         | none => META <<< 8) ∧
      (ParseShortcut t cache (str "ctrl++")).1.KeyName =
        ParseShortcut.resolve_key t (str "plus")) ∧
    (∀ s : GoString, (ParseShortcut.parts (s ++ str "+")).getLastD [] ≠ []) := by
  refine ⟨?_, ?_, ?_⟩
  · intro t cache s h1 h2
    rw [ParseShortcut_miss t cache _ h1, ParseShortcut_miss t cache _ h2]
    exact parse_congr t _ _ (by rw [parts_plus_sign, parts_plus_word])
  · intro t cache h
    rw [ParseShortcut_miss t cache _ h]
    unfold ParseShortcut.parse
    rw [parts_ctrl_plus]
    simp only [List.length_cons, List.length_nil, mods_loop_spec]
    refine ⟨?_, rfl⟩
    simp only [List.dropLast, List.foldl_cons, List.foldl_nil, ToUpper_ctrl]
    cases t.ConfigModMap.lookup (str "CTRL") <;> simp
  · intro s
    rw [parts_plus_sign]
    exact last_part_ne_nil 43 s (str "plus") (by decide) (by decide)

/-- C19, at the prefix `ctrl+shift+` with tables that know `CTRL`, `SHIFT` and the
alias `PLUS`, and for `ctrl++` with the same tables. -/
theorem trailing_plus_is_plus_key_witness :
    (ParseShortcut ⟨[], [(str "PLUS", str "+")], [(str "CTRL", 4), (str "SHIFT", 1)],
        fun r => r⟩ [] (str "ctrl+shift+" ++ str "+")).1 =
      (ParseShortcut ⟨[], [(str "PLUS", str "+")], [(str "CTRL", 4), (str "SHIFT", 1)],
        fun r => r⟩ [] (str "ctrl+shift+" ++ str "plus")).1 ∧
    ((ParseShortcut ⟨[], [(str "PLUS", str "+")], [(str "CTRL", 4), (str "SHIFT", 1)],
        fun r => r⟩ [] (str "ctrl++")).1.Mods =
        (match (⟨[], [(str "PLUS", str "+")], [(str "CTRL", 4), (str "SHIFT", 1)],
            fun r => r⟩ : KittyTables).ConfigModMap.lookup (str "CTRL") with
         | some val => val % 65536
         | none => META <<< 8) ∧
      (ParseShortcut ⟨[], [(str "PLUS", str "+")], [(str "CTRL", 4), (str "SHIFT", 1)],
        fun r => r⟩ [] (str "ctrl++")).1.KeyName =
        ParseShortcut.resolve_key ⟨[], [(str "PLUS", str "+")],
          [(str "CTRL", 4), (str "SHIFT", 1)], fun r => r⟩ (str "plus")) :=
  ⟨trailing_plus_is_plus_key.1 _ [] (str "ctrl+shift+") rfl rfl,
    trailing_plus_is_plus_key.2.1 _ [] rfl⟩

end KeyEncoding
namespace KeyEncoding

theorem resolve_key_congr (t : KittyTables) (k1 k2 : GoString)
    (hU : strings_ToUpper t.unicode_ToUpper k1 = strings_ToUpper t.unicode_ToUpper k2)
    (hc : k1 = k2 ∨
      (t.FunctionalKeyNameAliases.lookup (strings_ToUpper t.unicode_ToUpper k1)).isSome = true ∨
      (name_to_functional_number_map.lookup (strings_ToUpper t.unicode_ToUpper k1)).isSome = true ∨
      (t.CharacterKeyNameAliases.lookup (strings_ToUpper t.unicode_ToUpper k1)).isSome = true) :
    ParseShortcut.resolve_key t k1 = ParseShortcut.resolve_key t k2 := by
  unfold ParseShortcut.resolve_key
  rw [← hU]
  cases hF : t.FunctionalKeyNameAliases.lookup (strings_ToUpper t.unicode_ToUpper k1) with
  | some val => rfl
  | none =>
    simp only
    rw [← hU]
    cases hN : name_to_functional_number_map.lookup (strings_ToUpper t.unicode_ToUpper k1) with
    | some fn => rfl
    | none =>
      simp only
      cases hC : t.CharacterKeyNameAliases.lookup (strings_ToUpper t.unicode_ToUpper k1) with
      | some val => rfl
      | none =>
        simp only
        rcases hc with h | h | h | h
        · exact h
        · rw [hF] at h; exact absurd h (by simp)
        · rw [hN] at h; exact absurd h (by simp)
        · rw [hC] at h; exact absurd h (by simp)

theorem resolve_key_literal (t : KittyTables) (k : GoString)
    (hF : t.FunctionalKeyNameAliases.lookup (strings_ToUpper t.unicode_ToUpper k) = none)
    (hN : name_to_functional_number_map.lookup (strings_ToUpper t.unicode_ToUpper k) = none)
    (hC : t.CharacterKeyNameAliases.lookup (strings_ToUpper t.unicode_ToUpper k) = none) :
    ParseShortcut.resolve_key t k = k := by
  unfold ParseShortcut.resolve_key
  simp only [hF, hN, hC]

theorem parse_eq (t : KittyTables) (spec : GoString) :
    ParseShortcut.parse t spec =
      { Mods :=
          if (ParseShortcut.parts spec).length > 1 then
            ((ParseShortcut.parts spec).dropLast.map (strings_ToUpper t.unicode_ToUpper)).foldl
              (fun m u =>
                match t.ConfigModMap.lookup u with
                | some val => m ||| (val % 65536)
                | none => m ||| (META <<< 8)) 0
          else 0,
        KeyName := ParseShortcut.resolve_key t ((ParseShortcut.parts spec).getLastD []) } := by
  unfold ParseShortcut.parse
  simp only [mods_loop_spec, List.foldl_map]
  split <;> rfl

/-- C20, as stated, fails: with empty tables the specs `a` and `A`, which differ only
in the case of a letter, parse to different key names; so do `ctrl+a` and `CTRL+A` when
`CTRL` is a known modifier. -/
theorem literal_key_token_keeps_case :
    strings_ToUpper (fun r => r) (str "a") = strings_ToUpper (fun r => r) (str "A") ∧
    (ParseShortcut ⟨[], [], [], fun r => r⟩ [] (str "a")).1 =
      { Mods := 0, KeyName := str "a" } ∧
    (ParseShortcut ⟨[], [], [], fun r => r⟩ [] (str "A")).1 =
      { Mods := 0, KeyName := str "A" } ∧
    (ParseShortcut ⟨[], [], [], fun r => r⟩ [] (str "a")).1 ≠
      (ParseShortcut ⟨[], [], [], fun r => r⟩ [] (str "A")).1 ∧
    (ParseShortcut ⟨[], [], [(str "CTRL", 4)], fun r => r⟩ [] (str "ctrl+a")).1 ≠
      (ParseShortcut ⟨[], [], [(str "CTRL", 4)], fun r => r⟩ [] (str "CTRL+A")).1 := by
  decide

/-- C20, amended: shortcut specs are case-insensitive in their modifier tokens and in
a key token that is an alias or a functional key name, not in a literal key token. For
every pair of specs whose tokens (the pieces between `+`, a final `+` read as `plus`)
are equal after `strings.ToUpper`, `ParseShortcut` on a cache miss returns the same
modifier set, whatever the tables; it returns the same key name too when the key tokens
are written the same or the upper-cased key token is found in the functional alias
table, among the functional key names or in the character alias table; a key token
found in none of them is returned as it is written. -/
theorem ParseShortcut_case_insensitive_tokens (t : KittyTables)
    (cache : List (GoString × ParsedShortcut)) (s1 s2 : GoString)
    (h1 : cache.lookup s1 = none) (h2 : cache.lookup s2 = none)
    (hTokens : (ParseShortcut.parts s1).map (strings_ToUpper t.unicode_ToUpper) =
      (ParseShortcut.parts s2).map (strings_ToUpper t.unicode_ToUpper)) :
    (ParseShortcut t cache s1).1.Mods = (ParseShortcut t cache s2).1.Mods ∧
    (((ParseShortcut.parts s1).getLastD [] = (ParseShortcut.parts s2).getLastD [] ∨
      (t.FunctionalKeyNameAliases.lookup (strings_ToUpper t.unicode_ToUpper
        ((ParseShortcut.parts s1).getLastD []))).isSome = true ∨
      (name_to_functional_number_map.lookup (strings_ToUpper t.unicode_ToUpper
        ((ParseShortcut.parts s1).getLastD []))).isSome = true ∨
      (t.CharacterKeyNameAliases.lookup (strings_ToUpper t.unicode_ToUpper
        ((ParseShortcut.parts s1).getLastD []))).isSome = true) →
      (ParseShortcut t cache s1).1 = (ParseShortcut t cache s2).1) ∧
    (t.FunctionalKeyNameAliases.lookup (strings_ToUpper t.unicode_ToUpper
        ((ParseShortcut.parts s1).getLastD [])) = none →
      name_to_functional_number_map.lookup (strings_ToUpper t.unicode_ToUpper
        ((ParseShortcut.parts s1).getLastD [])) = none →
      t.CharacterKeyNameAliases.lookup (strings_ToUpper t.unicode_ToUpper
        ((ParseShortcut.parts s1).getLastD [])) = none →
      (ParseShortcut t cache s1).1.KeyName = (ParseShortcut.parts s1).getLastD [] ∧
      (ParseShortcut t cache s2).1.KeyName = (ParseShortcut.parts s2).getLastD []) := by
  rw [ParseShortcut_miss t cache s1 h1, ParseShortcut_miss t cache s2 h2, parse_eq, parse_eq]
  have hlen : (ParseShortcut.parts s1).length = (ParseShortcut.parts s2).length := by
    have := congrArg List.length hTokens
    simpa using this
  have hdrop : (ParseShortcut.parts s1).dropLast.map (strings_ToUpper t.unicode_ToUpper) =
      (ParseShortcut.parts s2).dropLast.map (strings_ToUpper t.unicode_ToUpper) := by
    rw [List.map_dropLast, List.map_dropLast, hTokens]
  have hlast : strings_ToUpper t.unicode_ToUpper ((ParseShortcut.parts s1).getLastD []) =
      strings_ToUpper t.unicode_ToUpper ((ParseShortcut.parts s2).getLastD []) := by
    have e1 := List.getLastD_map (strings_ToUpper t.unicode_ToUpper) (ParseShortcut.parts s1) []
    have e2 := List.getLastD_map (strings_ToUpper t.unicode_ToUpper) (ParseShortcut.parts s2) []
    rw [← e1, ← e2, hTokens]
  have hfold :
      (if (ParseShortcut.parts s1).length > 1 then
        ((ParseShortcut.parts s1).dropLast.map (strings_ToUpper t.unicode_ToUpper)).foldl
          (fun m u =>
            match t.ConfigModMap.lookup u with
            | some val => m ||| (val % 65536)
            | none => m ||| (META <<< 8)) 0
       else 0) =
      (if (ParseShortcut.parts s2).length > 1 then
        ((ParseShortcut.parts s2).dropLast.map (strings_ToUpper t.unicode_ToUpper)).foldl
          (fun m u =>
            match t.ConfigModMap.lookup u with
            | some val => m ||| (val % 65536)
            | none => m ||| (META <<< 8)) 0
       else 0) := by
    simp only [hlen, hdrop]
  refine ⟨hfold, ?_, ?_⟩
  · intro hc
    rw [ParsedShortcut.mk.injEq]
    exact ⟨hfold, resolve_key_congr t _ _ hlast hc⟩
  · intro hF hN hC
    exact ⟨resolve_key_literal t _ hF hN hC,
      resolve_key_literal t _ (hlast ▸ hF) (hlast ▸ hN) (hlast ▸ hC)⟩

/-- C20 amended, at `Ctrl+Shift+f1` and `cTRL+sHIFT+F1` with tables that know `CTRL`
and `SHIFT`: the key token is a functional key name. -/
theorem ParseShortcut_case_insensitive_tokens_witness :
    (ParseShortcut ⟨[], [], [(str "CTRL", 4), (str "SHIFT", 1)], fun r => r⟩ []
        (str "Ctrl+Shift+f1")).1 =
      (ParseShortcut ⟨[], [], [(str "CTRL", 4), (str "SHIFT", 1)], fun r => r⟩ []
        (str "cTRL+sHIFT+F1")).1 :=
  (ParseShortcut_case_insensitive_tokens
    ⟨[], [], [(str "CTRL", 4), (str "SHIFT", 1)], fun r => r⟩ []
    (str "Ctrl+Shift+f1") (str "cTRL+sHIFT+F1") rfl rfl (by decide)).2.1
    (Or.inr (Or.inr (Or.inl (by decide))))

end KeyEncoding
